import Mathlib

/-!
A verification development for the `StylesheetsRepository` class of the
enhanced-dom/css package.  The repository is shallowly embedded: the host
document is a list of child nodes (style elements, a head container, other
nodes), each style element carries a marker attribute value, a textual
content and the live rule list the host style engine parsed from that text.
Repository operations are pure functions threading the document state and
returning the list of dispatched miss events.

Strings are modelled as lists of characters (`Str`); the host style engine
(out of scope of the package, specified at the boundary in the design
document) is modelled by an executable serializer and parser over a
canonical rule text format.
-/

namespace EnhancedDomCss

/-- Strings modelled as character lists. -/
abbrev Str := List Char

/-- Conversion from a string literal to the model representation. -/
def str (s : String) : Str := s.data

/-- JavaScript `String.prototype.endsWith`: `s` ends with `post`. -/
def endsWithStr (s post : Str) : Bool :=
  if post.length ≤ s.length then s.drop (s.length - post.length) == post else false

/-- Drop leading space characters (used by the host engine model when
scanning for the next rule). -/
def dropSpaces : Str → Str
  | [] => []
  | c :: cs => if c = ' ' then dropSpaces cs else c :: cs

/-- Split a character list at the first occurrence of `target`; returns the
part before and the part after (the occurrence itself removed), or `none`
when `target` does not occur. -/
def splitAtChar (target : Char) : Str → Option (Str × Str)
  | [] => none
  | c :: cs =>
    if c = target then some ([], cs)
    else
      match splitAtChar target cs with
      | some (a, b) => some (c :: a, b)
      | none => none

/-- A single CSS declaration: property name and value. -/
structure Decl where
  name : Str
  value : Str
deriving DecidableEq, Repr

/-- A CSS rule as exposed by the host engine: either a plain selector rule
(`CSSStyleRule`, carrying its selector text and declaration block) or some
other rule kind (at-rules and similar constructs). -/
inductive CSSRule where
  | styleRule (selectorText : Str) (decls : List Decl)
  | otherRule (text : Str)
deriving DecidableEq, Repr

/-- Serialization of one declaration: `name:value;`. -/
def serializeDecl (dc : Decl) : Str := dc.name ++ ':' :: dc.value ++ [';']

/-- The `cssText` of a rule as produced by the host engine model:
`selector{decls}` for a plain rule, the stored text for other kinds. -/
def CSSRule.cssText : CSSRule → Str
  | .styleRule sel decls => sel ++ '{' :: (decls.map serializeDecl).flatten ++ ['}']
  | .otherRule t => t

/-- Source `StylesheetsRepository._serializeStylesheet`: concatenate the `cssText`
of every rule with no separator (`join('')` in the source). -/
def serializeStylesheet (rules : List CSSRule) : Str :=
  (rules.map CSSRule.cssText).flatten

/-- Modelled from the spec: the host style engine's parsing of a declaration
block body into declarations (the engine itself is an external collaborator,
not part of src/).  Fuel-based recursion; pieces are separated by `;` and a
piece without `:` is skipped. -/
def parseDeclBodyF : Nat → Str → List Decl
  | 0, _ => []
  | fuel + 1, body =>
    match splitAtChar ';' body with
    | some (piece, rest) =>
      match splitAtChar ':' piece with
      | some (n, v) => ⟨n, v⟩ :: parseDeclBodyF fuel rest
      | none => parseDeclBodyF fuel rest
    | none => []

/-- Parsing of a declaration block body with sufficient fuel. -/
def parseDeclBody (body : Str) : List Decl := parseDeclBodyF (body.length + 1) body

/-- Modelled from the spec: the host style engine's parsing of stylesheet
text into a live rule list (§6 boundary contract: assigned text content is
parsed into an ordered rule list).  Leading spaces before a rule are
skipped; a rule is the text before the first `\x7b`, then a declaration body
up to the first `\x7d`. -/
def parseRulesF : Nat → Str → List CSSRule
  | 0, _ => []
  | fuel + 1, s =>
    match splitAtChar '{' (dropSpaces s) with
    | none => []
    | some (sel, rest) =>
      match splitAtChar '}' rest with
      | none => []
      | some (body, rest') => .styleRule sel (parseDeclBody body) :: parseRulesF fuel rest'

/-- Parsing of stylesheet text with sufficient fuel. -/
def parseRules (s : Str) : List CSSRule := parseRulesF (s.length + 1) s

/-- Well-formedness of a declaration for the text round trip: the name is
free of `:`, `;`, `\x7d`; the value is free of `;`, `\x7d`. -/
def wfDecl (dc : Decl) : Bool :=
  !dc.name.contains ':' && !dc.name.contains ';' && !dc.name.contains '}' &&
    !dc.value.contains ';' && !dc.value.contains '}'

/-- Well-formedness of a selector for the text round trip: free of `\x7b`
and not starting with a space. -/
def wfSel (sel : Str) : Bool := !sel.contains '{' && sel.head? != some ' '

/-- Well-formedness of a rule for the text round trip: a plain selector rule
with a well-formed selector and declarations. -/
def wfRule : CSSRule → Bool
  | .styleRule sel decls => wfSel sel && decls.all wfDecl
  | .otherRule _ => false

/-! ## The document model -/

/-- A style-carrying element: its marker attribute value (the
`STYLESHEET_ATTRIBUTE_NAME` attribute, absent when `none`), its textual
content, and the live rule list the engine parsed from it. -/
structure StyleNode where
  marker : Option Str
  content : Str
  rules : List CSSRule
deriving DecidableEq, Repr

/-- A direct child of the document root: a style element, a head container
(holding style elements), or any other node (element or not, with its tag
name). -/
inductive ChildNode where
  | styleChild (s : StyleNode)
  | headChild (styles : List StyleNode)
  | otherChild (isElem : Bool) (tag : Str)
deriving DecidableEq, Repr

/-- The document (or shadow root) the repository is bound to. -/
structure Doc where
  children : List ChildNode
deriving DecidableEq, Repr

/-- Source test `n.nodeType === ELEMENT_NODE && n.tagName.toLowerCase() === 'style'`. -/
def isStyleChild : ChildNode → Bool
  | .styleChild _ => true
  | _ => false

/-- Whether a child is the head container (for `querySelector('head')`). -/
def isHeadChild : ChildNode → Bool
  | .headChild _ => true
  | _ => false

/-- Position of a style sheet inside the document: a top-level style child
at index `i`, or the `j`-th style element inside the head child at index
`i`. -/
inductive SheetLoc where
  | top (i : Nat)
  | inHead (i : Nat) (j : Nat)
deriving DecidableEq, Repr

/-- Index of the first style node inside a head marked with `n`. -/
def findTaggedInStyles (styles : List StyleNode) (n : Str) : Option Nat :=
  styles.findIdx? (fun s => s.marker == some n)

/-- Scan of `document.styleSheets` in document order for the first sheet
whose owner node's marker attribute equals the requested name; `i` is the
absolute index of the first child still to scan. -/
def findSheetLocAux (n : Str) : Nat → List ChildNode → Option SheetLoc
  | _, [] => none
  | i, .styleChild s :: cs =>
    if s.marker == some n then some (.top i) else findSheetLocAux n (i + 1) cs
  | i, .headChild styles :: cs =>
    match findTaggedInStyles styles n with
    | some j => some (.inHead i j)
    | none => findSheetLocAux n (i + 1) cs
  | i, .otherChild _ _ :: cs => findSheetLocAux n (i + 1) cs

/-- The scan of the document's style sheet collection performed by
`getStylesheet`. -/
def findSheetLoc (d : Doc) (n : Str) : Option SheetLoc := findSheetLocAux n 0 d.children

/-- Dereference a sheet position. -/
def Doc.getSheet (d : Doc) : SheetLoc → Option StyleNode
  | .top i =>
    match d.children[i]? with
    | some (.styleChild s) => some s
    | _ => none
  | .inHead i j =>
    match d.children[i]? with
    | some (.headChild styles) => styles[j]?
    | _ => none

/-- Replace the sheet at a position (in-place mutation of the live DOM
object in the source). -/
def Doc.setSheet (d : Doc) (loc : SheetLoc) (s : StyleNode) : Doc :=
  match loc with
  | .top i => ⟨d.children.set i (.styleChild s)⟩
  | .inHead i j =>
    match d.children[i]? with
    | some (.headChild styles) => ⟨d.children.set i (.headChild (styles.set j s))⟩
    | _ => d

/-- Number of style sheets in the document tagged with `n` (the count of
sheets a resolver could match). -/
def ChildNode.taggedCount (n : Str) : ChildNode → Nat
  | .styleChild s => if s.marker == some n then 1 else 0
  | .headChild styles => (styles.filter (fun s => s.marker == some n)).length
  | .otherChild _ _ => 0

/-- Total number of style sheets tagged with `n`. -/
def Doc.taggedCount (d : Doc) (n : Str) : Nat :=
  (d.children.map (ChildNode.taggedCount n)).sum

/-! ## The repository operations -/

/-- A miss event dispatched on the document. -/
inductive DomEvent where
  | unknownStylesheet (stylesheetName : Str) (emitterType : Str) (emitterId : Str)
  | unknownCssRule (stylesheetName : Str) (selector : Str) (emitterType : Str) (emitterId : Str)
deriving DecidableEq, Repr

/-- Source `StylesheetsRepository.eventEmitterType`. -/
def eventEmitterType : Str := str "@enhanced-dom/stylesheetsRepository"

/-- The per-instance state of a repository: its `_name` (used as the event
emitter id; the constructor default is "Unknown"). -/
structure RepoCfg where
  name : Str
deriving DecidableEq, Repr

/-- Source `StylesheetsRepository.getStylesheet`: scan the style sheet collection
for a marker match; on a miss in strict mode dispatch one
UnknownStylesheet event. -/
def getStylesheetFn (cfg : RepoCfg) (d : Doc) (n : Str) (strict : Bool) :
    Option SheetLoc × List DomEvent :=
  match findSheetLoc d n with
  | some loc => (some loc, [])
  | none =>
    if strict then (none, [DomEvent.unknownStylesheet n eventEmitterType cfg.name])
    else (none, [])

/-- The placement policy of `getOrCreateStylesheet` for a freshly created
style node.  Note on the second scan: the source passes
`documentNodes.indexOf(firstStylesheet)` as the second argument of
`Array.prototype.find`, which is the `thisArg` parameter, not a start
index, so the scan for a non-style node starts at the beginning of the
child list. -/
def insertNewStyleNode (d : Doc) (node : StyleNode) : Doc :=
  match d.children.findIdx? isHeadChild with
  | some i =>
    match d.children[i]? with
    | some (.headChild styles) => ⟨d.children.set i (.headChild (styles ++ [node]))⟩
    | _ => d
  | none =>
    match d.children.findIdx? isStyleChild with
    | some _ =>
      match d.children.findIdx? (fun c => !isStyleChild c) with
      | some k => ⟨d.children.take k ++ ChildNode.styleChild node :: d.children.drop k⟩
      | none => ⟨d.children ++ [ChildNode.styleChild node]⟩
    | none => ⟨ChildNode.styleChild node :: d.children⟩

/-- Source `StylesheetsRepository.getOrCreateStylesheet`: resolve non-strict; when
absent create a style node tagged with the name, insert it per the
placement policy, and finish with a strict resolve. -/
def getOrCreateStylesheetFn (cfg : RepoCfg) (d : Doc) (n : Str) :
    Option SheetLoc × Doc × List DomEvent :=
  match (getStylesheetFn cfg d n false).1 with
  | some _ =>
    let r := getStylesheetFn cfg d n true
    (r.1, d, r.2)
  | none =>
    let d₁ := insertNewStyleNode d ⟨some n, [], []⟩
    let r := getStylesheetFn cfg d₁ n true
    (r.1, d₁, r.2)

/-- Assigning `innerHTML` on a style element: the content is replaced and
the host engine reparses it into the live rule list. -/
def setInnerHTML (s : StyleNode) (contents : Str) : StyleNode :=
  ⟨s.marker, contents, parseRules contents⟩

/-- Source `StylesheetsRepository.createOrUpdateStylesheet`: get or create the
sheet, then replace its owner node's content.  (When the sheet handle is
absent the source would fault on the dereference; the partial state is
kept.) -/
def createOrUpdateStylesheetFn (cfg : RepoCfg) (d : Doc) (n contents : Str) :
    Doc × List DomEvent :=
  match getOrCreateStylesheetFn cfg d n with
  | (some loc, d₁, evs) =>
    match d₁.getSheet loc with
    | some s => (d₁.setSheet loc (setInnerHTML s contents), evs)
    | none => (d₁, evs)
  | (none, d₁, evs) => (d₁, evs)

/-- Source `StylesheetsRepository._refreshStylesheet`: write the serialization of
the live rule list back into the owner node's content (which the engine
then reparses). -/
def refreshStylesheetFn (d : Doc) (loc : SheetLoc) : Doc :=
  match d.getSheet loc with
  | some s => d.setSheet loc (setInnerHTML s (serializeStylesheet s.rules))
  | none => d

/-- Whether a rule is a plain selector rule (`r instanceof CSSStyleRule`). -/
def ruleIsStyle : CSSRule → Bool
  | .styleRule _ _ => true
  | .otherRule _ => false

/-- The `selectorText` of a rule (only read on plain selector rules). -/
def ruleSelText : CSSRule → Str
  | .styleRule sel _ => sel
  | .otherRule _ => []

/-- The rule scan of `getRule`: keep the plain selector rules (with their
positions in the full rule list) and take the first whose selector text
ends with the requested fragment. -/
def findRuleInSheet (rules : List CSSRule) (sel : Str) : Option Nat :=
  (((rules.enum.filter (fun p => ruleIsStyle p.2)).find?
      (fun p => endsWithStr (ruleSelText p.2) sel)).map Prod.fst)

/-- Source `StylesheetsRepository.getRule`: resolve the sheet with the same strict
flag; on success scan its rules; on a rule miss in strict mode dispatch one
UnknownCssRule event. -/
def getRuleFn (cfg : RepoCfg) (d : Doc) (n sel : Str) (strict : Bool) :
    Option (SheetLoc × Nat) × List DomEvent :=
  match getStylesheetFn cfg d n strict with
  | (none, evs) => (none, evs)
  | (some loc, evs) =>
    match d.getSheet loc with
    | none => (none, evs)
    | some s =>
      match findRuleInSheet s.rules sel with
      | some i => (some (loc, i), evs)
      | none =>
        if strict then
          (none, evs ++ [DomEvent.unknownCssRule n sel eventEmitterType cfg.name])
        else (none, evs)

/-- Source `StylesheetsRepository.getOrCreateRule`: resolve non-strict; when absent
serialize the current sheet content, append an empty rule body for the
selector, push the combined text back, re-resolve the sheet and return its
last rule. -/
def getOrCreateRuleFn (cfg : RepoCfg) (d : Doc) (n sel : Str) :
    Option (SheetLoc × Nat) × Doc × List DomEvent :=
  match getRuleFn cfg d n sel false with
  | (some r, evs₀) => (some r, d, evs₀)
  | (none, evs₀) =>
    match getOrCreateStylesheetFn cfg d n with
    | (none, d₁, evs₁) => (none, d₁, evs₀ ++ evs₁)
    | (some loc, d₁, evs₁) =>
      match d₁.getSheet loc with
      | none => (none, d₁, evs₀ ++ evs₁)
      | some s =>
        let newContents := serializeStylesheet s.rules ++ ' ' :: sel ++ ['{', '}']
        match createOrUpdateStylesheetFn cfg d₁ n newContents with
        | (d₂, evs₂) =>
          match getOrCreateStylesheetFn cfg d₂ n with
          | (none, d₃, evs₃) => (none, d₃, evs₀ ++ evs₁ ++ evs₂ ++ evs₃)
          | (some loc₂, d₃, evs₃) =>
            match d₃.getSheet loc₂ with
            | none => (none, d₃, evs₀ ++ evs₁ ++ evs₂ ++ evs₃)
            | some s₂ =>
              if s₂.rules.length = 0 then (none, d₃, evs₀ ++ evs₁ ++ evs₂ ++ evs₃)
              else (some (loc₂, s₂.rules.length - 1), d₃, evs₀ ++ evs₁ ++ evs₂ ++ evs₃)

/-- Assigning `cssText` on a live rule: replace the rule by the parse of the
assigned text. -/
def spliceRuleText (s : StyleNode) (i : Nat) (contents : Str) : StyleNode :=
  ⟨s.marker, s.content, s.rules.take i ++ parseRules contents ++ s.rules.drop (i + 1)⟩

/-- Source `StylesheetsRepository.createOrUpdateRule`: get or create the rule,
replace its text, then refresh the owning style sheet. -/
def createOrUpdateRuleFn (cfg : RepoCfg) (d : Doc) (n sel contents : Str) :
    Doc × List DomEvent :=
  match getOrCreateRuleFn cfg d n sel with
  | (none, d₁, evs) => (d₁, evs)
  | (some (loc, i), d₁, evs) =>
    match d₁.getSheet loc with
    | none => (d₁, evs)
    | some s => (refreshStylesheetFn (d₁.setSheet loc (spliceRuleText s i contents)) loc, evs)

/-- Host `CSSStyleDeclaration.setProperty` on a declaration list: update the
first declaration with the given name in place, else append. -/
def setDecl : List Decl → Str → Str → List Decl
  | [], p, v => [⟨p, v⟩]
  | dc :: ds, p, v => if dc.name == p then ⟨p, v⟩ :: ds else dc :: setDecl ds p v

/-- Host `rule.style.setProperty` on a live rule. -/
def setPropOnRule (r : CSSRule) (p v : Str) : CSSRule :=
  match r with
  | .styleRule sel ds => .styleRule sel (setDecl ds p v)
  | .otherRule t => .otherRule t

/-- Replace the rule at index `i` by `f` of itself. -/
def modifyRule (rules : List CSSRule) (i : Nat) (f : CSSRule → CSSRule) : List CSSRule :=
  match rules[i]? with
  | some r => rules.set i (f r)
  | none => rules

/-- Source `StylesheetsRepository.setProperty`: get or create the rule, set the
declaration on it, then refresh the owning style sheet. -/
def setPropertyFn (cfg : RepoCfg) (d : Doc) (n sel p v : Str) : Doc × List DomEvent :=
  match getOrCreateRuleFn cfg d n sel with
  | (none, d₁, evs) => (d₁, evs)
  | (some (loc, i), d₁, evs) =>
    match d₁.getSheet loc with
    | none => (d₁, evs)
    | some s =>
      let s' : StyleNode := ⟨s.marker, s.content, modifyRule s.rules i (setPropOnRule · p v)⟩
      (refreshStylesheetFn (d₁.setSheet loc s') loc, evs)

/-- Host `CSSStyleDeclaration.getPropertyValue` on a declaration list: the value
of the first declaration with the given name, or the empty string. -/
def getDeclValue (ds : List Decl) (p : Str) : Str :=
  match ds.find? (fun dc => dc.name == p) with
  | some dc => dc.value
  | none => []

/-- Host `rule.style.getPropertyValue` on a live rule. -/
def rulePropValue (r : CSSRule) (p : Str) : Str :=
  match r with
  | .styleRule _ ds => getDeclValue ds p
  | .otherRule _ => []

/-- The combined predicate of the `getRule` scan: a plain selector rule
whose selector text ends with the requested fragment. -/
def ruleMatches (sel : Str) (r : CSSRule) : Bool :=
  ruleIsStyle r && endsWithStr (ruleSelText r) sel

/-- The well-formedness assumption on a document relative to a name: when
the name resolves, the resolved sheet's live rules are well formed. -/
def sheetRulesWF (d : Doc) (n : Str) : Prop :=
  ∀ loc s, findSheetLoc d n = some loc → d.getSheet loc = some s →
    s.rules.all wfRule = true

/-- Source `StylesheetsRepository.getProperty`: get the rule (with the strict
flag), then read the declaration value from it. -/
def getPropertyFn (cfg : RepoCfg) (d : Doc) (n sel p : Str) (strict : Bool) :
    Option Str × List DomEvent :=
  match getRuleFn cfg d n sel strict with
  | (none, evs) => (none, evs)
  | (some (loc, i), evs) =>
    match d.getSheet loc with
    | none => (none, evs)
    | some s =>
      match s.rules[i]? with
      | none => (none, evs)
      | some r => (some (rulePropValue r p), evs)

/-! ## Facts about the string helpers -/

lemma contains_false_iff {l : Str} {c : Char} : l.contains c = false ↔ c ∉ l := by
  constructor
  · intro h hc
    have := (List.elem_iff (a := c)).mpr hc
    simp [List.contains] at h
    simp [h] at this
  · intro h
    by_contra hne
    have : l.contains c = true := by
      cases hb : l.contains c
      · exact absurd hb hne
      · rfl
    exact h (List.elem_iff.mp (by simpa [List.contains] using this))

lemma splitAtChar_eq_some {t : Char} : ∀ {l a b : Str},
    splitAtChar t l = some (a, b) → l = a ++ t :: b ∧ t ∉ a := by
  intro l
  induction l with
  | nil => intro a b h; simp [splitAtChar] at h
  | cons c cs ih =>
    intro a b h
    by_cases hc : c = t
    · simp [splitAtChar, hc] at h
      obtain ⟨rfl, rfl⟩ := h
      simp [hc]
    · cases hsp : splitAtChar t cs with
      | none => simp [splitAtChar, hc, hsp] at h
      | some ab =>
        obtain ⟨a', b'⟩ := ab
        simp [splitAtChar, hc, hsp] at h
        obtain ⟨rfl, rfl⟩ := h
        obtain ⟨he, hm⟩ := ih hsp
        constructor
        · simp [he]
        · simp [List.mem_cons, hm]
          exact fun h' => hc h'.symm

lemma splitAtChar_append {t : Char} : ∀ {a : Str} (b : Str),
    t ∉ a → splitAtChar t (a ++ t :: b) = some (a, b) := by
  intro a
  induction a with
  | nil => intro b _; simp [splitAtChar]
  | cons c cs ih =>
    intro b h
    simp [List.mem_cons] at h
    obtain ⟨h1, h2⟩ := h
    have : ¬ (c = t) := fun hh => h1 hh.symm
    simp [splitAtChar, this, ih b h2]

lemma splitAtChar_none {t : Char} : splitAtChar t [] = none := rfl

lemma dropSpaces_eq_self : ∀ {l : Str}, l.head? ≠ some ' ' → dropSpaces l = l := by
  intro l h
  cases l with
  | nil => rfl
  | cons c cs =>
    simp at h
    simp [dropSpaces, h]

lemma dropSpaces_head? : ∀ (l : Str), (dropSpaces l).head? ≠ some ' ' := by
  intro l
  induction l with
  | nil => simp [dropSpaces]
  | cons c cs ih =>
    by_cases hc : c = ' '
    · simpa [dropSpaces, hc] using ih
    · simp [dropSpaces, hc]

lemma dropSpaces_length_le : ∀ (l : Str), (dropSpaces l).length ≤ l.length := by
  intro l
  induction l with
  | nil => simp [dropSpaces]
  | cons c cs ih =>
    by_cases hc : c = ' '
    · simp [dropSpaces, hc]; omega
    · simp [dropSpaces, hc]

lemma dropSpaces_cons_space (l : Str) : dropSpaces (' ' :: l) = dropSpaces l := by
  simp [dropSpaces]

/-! ## Fuel irrelevance and step equations for the parser model -/

lemma parseDeclBodyF_irrel : ∀ (f₁ : Nat) {f₂ : Nat} {body : Str},
    body.length < f₁ → body.length < f₂ → parseDeclBodyF f₁ body = parseDeclBodyF f₂ body := by
  intro f₁
  induction f₁ with
  | zero => intro f₂ body h1 _; omega
  | succ k ih =>
    intro f₂ body h1 h2
    cases f₂ with
    | zero => omega
    | succ m =>
      cases hsp : splitAtChar ';' body with
      | none => simp only [parseDeclBodyF, hsp]
      | some pr =>
        obtain ⟨piece, rest⟩ := pr
        have hlen : body = piece ++ ';' :: rest := (splitAtChar_eq_some hsp).1
        have : rest.length < k ∧ rest.length < m := by
          rw [hlen] at h1 h2
          simp [List.length_append] at h1 h2
          omega
        cases h2c : splitAtChar ':' piece with
        | none => simp only [parseDeclBodyF, hsp, h2c]; exact ih this.1 this.2
        | some nv => simp only [parseDeclBodyF, hsp, h2c, ih this.1 this.2]

lemma parseDeclBodyF_eq {fuel : Nat} {body : Str} (h : body.length < fuel) :
    parseDeclBodyF fuel body = parseDeclBody body :=
  parseDeclBodyF_irrel fuel h (Nat.lt_succ_self _)

lemma parseDeclBody_nil : parseDeclBody [] = [] := rfl

lemma parseDeclBody_step {body piece rest n v : Str}
    (h1 : splitAtChar ';' body = some (piece, rest))
    (h2 : splitAtChar ':' piece = some (n, v)) :
    parseDeclBody body = ⟨n, v⟩ :: parseDeclBody rest := by
  have hlen : body = piece ++ ';' :: rest := (splitAtChar_eq_some h1).1
  have hr : rest.length < body.length := by
    rw [hlen]; simp [List.length_append]; omega
  show parseDeclBodyF (body.length + 1) body = _
  simp only [parseDeclBodyF, h1, h2]
  rw [parseDeclBodyF_eq hr]

lemma parseDeclBody_step_skip {body piece rest : Str}
    (h1 : splitAtChar ';' body = some (piece, rest))
    (h2 : splitAtChar ':' piece = none) :
    parseDeclBody body = parseDeclBody rest := by
  have hlen : body = piece ++ ';' :: rest := (splitAtChar_eq_some h1).1
  have hr : rest.length < body.length := by
    rw [hlen]; simp [List.length_append]; omega
  show parseDeclBodyF (body.length + 1) body = _
  simp only [parseDeclBodyF, h1, h2]
  exact parseDeclBodyF_eq hr

lemma parseDeclBody_none {body : Str} (h : splitAtChar ';' body = none) :
    parseDeclBody body = [] := by
  show parseDeclBodyF (body.length + 1) body = _
  simp only [parseDeclBodyF, h]

lemma parseRulesF_irrel : ∀ (f₁ : Nat) {f₂ : Nat} {s : Str},
    s.length < f₁ → s.length < f₂ → parseRulesF f₁ s = parseRulesF f₂ s := by
  intro f₁
  induction f₁ with
  | zero => intro f₂ s h1 _; omega
  | succ k ih =>
    intro f₂ s h1 h2
    cases f₂ with
    | zero => omega
    | succ m =>
      cases hsp : splitAtChar '{' (dropSpaces s) with
      | none => simp only [parseRulesF, hsp]
      | some sr =>
        obtain ⟨sel, rest⟩ := sr
        cases hsp2 : splitAtChar '}' rest with
        | none => simp only [parseRulesF, hsp, hsp2]
        | some br =>
          obtain ⟨body, rest'⟩ := br
          have e1 : dropSpaces s = sel ++ '{' :: rest := (splitAtChar_eq_some hsp).1
          have e2 : rest = body ++ '}' :: rest' := (splitAtChar_eq_some hsp2).1
          have hds := dropSpaces_length_le s
          have : rest'.length < k ∧ rest'.length < m := by
            rw [e1, e2] at hds
            simp [List.length_append] at hds
            omega
          simp only [parseRulesF, hsp, hsp2, ih this.1 this.2]

lemma parseRulesF_eq {fuel : Nat} {s : Str} (h : s.length < fuel) :
    parseRulesF fuel s = parseRules s :=
  parseRulesF_irrel fuel h (Nat.lt_succ_self _)

lemma parseRules_nil : parseRules [] = [] := rfl

lemma parseRules_step {s sel rest body rest' : Str}
    (h1 : splitAtChar '{' (dropSpaces s) = some (sel, rest))
    (h2 : splitAtChar '}' rest = some (body, rest')) :
    parseRules s = CSSRule.styleRule sel (parseDeclBody body) :: parseRules rest' := by
  have e1 : dropSpaces s = sel ++ '{' :: rest := (splitAtChar_eq_some h1).1
  have e2 : rest = body ++ '}' :: rest' := (splitAtChar_eq_some h2).1
  have hds := dropSpaces_length_le s
  have hr : rest'.length < s.length := by
    rw [e1, e2] at hds
    simp [List.length_append] at hds
    omega
  show parseRulesF (s.length + 1) s = _
  simp only [parseRulesF, h1, h2]
  rw [parseRulesF_eq hr]

lemma parseRules_none {s : Str} (h : splitAtChar '{' (dropSpaces s) = none) :
    parseRules s = [] := by
  show parseRulesF (s.length + 1) s = _
  simp only [parseRulesF, h]

/-! ## Round trip of the serializer through the parser model -/

lemma wfDecl_facts {dc : Decl} (h : wfDecl dc = true) :
    ':' ∉ dc.name ∧ ';' ∉ dc.name ∧ '}' ∉ dc.name ∧ ';' ∉ dc.value ∧ '}' ∉ dc.value := by
  simp [wfDecl] at h
  tauto

lemma wfSel_facts {sel : Str} (h : wfSel sel = true) :
    '{' ∉ sel ∧ sel.head? ≠ some ' ' := by
  simp [wfSel] at h
  tauto

lemma parseDeclBody_roundtrip : ∀ {ds : List Decl}, ds.all wfDecl = true →
    parseDeclBody ((ds.map serializeDecl).flatten) = ds := by
  intro ds
  induction ds with
  | nil => intro _; simp [parseDeclBody_nil]
  | cons dc ds ih =>
    intro h
    simp only [List.all_cons, Bool.and_eq_true] at h
    obtain ⟨hw, hrest⟩ := h
    obtain ⟨w1, w2, _, w4, _⟩ := wfDecl_facts hw
    have hre : (List.map serializeDecl (dc :: ds)).flatten =
        (dc.name ++ ':' :: dc.value) ++ ';' :: (List.map serializeDecl ds).flatten := by
      simp [serializeDecl, List.append_assoc]
    have hnm : ';' ∉ dc.name ++ ':' :: dc.value := by
      simp [List.mem_append, List.mem_cons, w2, w4]
    rw [hre, parseDeclBody_step (splitAtChar_append _ hnm) (splitAtChar_append _ w1), ih hrest]

lemma closeBrace_notMem_body {ds : List Decl} (h : ds.all wfDecl = true) :
    '}' ∉ (ds.map serializeDecl).flatten := by
  intro hmem
  rw [List.mem_flatten] at hmem
  obtain ⟨l, hl, hcl⟩ := hmem
  rw [List.mem_map] at hl
  obtain ⟨dc, hdc, rfl⟩ := hl
  have hw : wfDecl dc = true := List.all_eq_true.mp h dc hdc
  obtain ⟨_, _, w3, _, w5⟩ := wfDecl_facts hw
  simp [serializeDecl] at hcl
  tauto

lemma head_ne_space_of_wfSel {sel rest : Str} (h : wfSel sel = true) :
    (sel ++ '{' :: rest).head? ≠ some ' ' := by
  obtain ⟨_, h2⟩ := wfSel_facts h
  cases sel with
  | nil => simp
  | cons c cs =>
    simp at h2 ⊢
    exact h2

lemma parseRules_serialize_append : ∀ {rules : List CSSRule}, rules.all wfRule = true →
    ∀ (t : Str), parseRules (serializeStylesheet rules ++ t) = rules ++ parseRules t := by
  intro rules
  induction rules with
  | nil => intro _ t; simp [serializeStylesheet]
  | cons r rs ih =>
    intro h t
    simp only [List.all_cons, Bool.and_eq_true] at h
    obtain ⟨hw, hrest⟩ := h
    cases r with
    | otherRule s => simp [wfRule] at hw
    | styleRule sel ds =>
      simp only [wfRule, Bool.and_eq_true] at hw
      obtain ⟨hsel, hds⟩ := hw
      have hre : serializeStylesheet (CSSRule.styleRule sel ds :: rs) ++ t =
          sel ++ '{' :: ((ds.map serializeDecl).flatten ++ '}' :: (serializeStylesheet rs ++ t)) := by
        simp [serializeStylesheet, CSSRule.cssText, List.append_assoc]
      rw [hre]
      have hd : dropSpaces (sel ++ '{' :: ((ds.map serializeDecl).flatten ++
          '}' :: (serializeStylesheet rs ++ t))) =
          sel ++ '{' :: ((ds.map serializeDecl).flatten ++ '}' :: (serializeStylesheet rs ++ t)) :=
        dropSpaces_eq_self (head_ne_space_of_wfSel hsel)
      have h1 := splitAtChar_append (t := '{')
        ((ds.map serializeDecl).flatten ++ '}' :: (serializeStylesheet rs ++ t))
        (wfSel_facts hsel).1
      have h2 := splitAtChar_append (t := '}') (serializeStylesheet rs ++ t)
        (closeBrace_notMem_body hds)
      rw [parseRules_step (by rw [hd]; exact h1) h2, parseDeclBody_roundtrip hds, ih hrest]
      simp

lemma parseRules_serialize {rules : List CSSRule} (h : rules.all wfRule = true) :
    parseRules (serializeStylesheet rules) = rules := by
  have := parseRules_serialize_append h []
  simpa [parseRules_nil] using this

lemma parseRules_newRuleText {sel : Str} (hsel : wfSel sel = true) :
    parseRules (' ' :: sel ++ ['{', '}']) = [CSSRule.styleRule sel []] := by
  have hd : dropSpaces (' ' :: sel ++ ['{', '}']) = sel ++ '{' :: ['}'] := by
    rw [List.cons_append, dropSpaces_cons_space]
    exact dropSpaces_eq_self (head_ne_space_of_wfSel hsel)
  have h1 := splitAtChar_append (t := '{') ['}'] (wfSel_facts hsel).1
  have h2 : splitAtChar '}' ['}'] = some (([] : Str), ([] : Str)) := rfl
  rw [parseRules_step (by rw [hd]; exact h1) h2, parseDeclBody_nil, parseRules_nil]

lemma parseRules_serialize_newRule {rules : List CSSRule} {sel : Str}
    (h : rules.all wfRule = true) (hsel : wfSel sel = true) :
    parseRules (serializeStylesheet rules ++ ' ' :: sel ++ ['{', '}']) =
      rules ++ [CSSRule.styleRule sel []] := by
  rw [List.append_assoc, parseRules_serialize_append h, parseRules_newRuleText hsel]

/-! ## Well-formedness of everything the parser model returns -/

lemma wf_parseDeclBodyF : ∀ (fuel : Nat) (body : Str), '}' ∉ body →
    (parseDeclBodyF fuel body).all wfDecl = true := by
  intro fuel
  induction fuel with
  | zero => intro body _; simp [parseDeclBodyF]
  | succ k ih =>
    intro body hb
    cases hsp : splitAtChar ';' body with
    | none => simp [parseDeclBodyF, hsp]
    | some pr =>
      obtain ⟨piece, rest⟩ := pr
      obtain ⟨he, hnm⟩ := splitAtChar_eq_some hsp
      have hpiece : '}' ∉ piece := fun hc => hb (by rw [he]; simp [hc])
      have hrest : '}' ∉ rest := fun hc => hb (by rw [he]; simp [hc])
      have hsemi : ';' ∉ piece := hnm
      cases h2c : splitAtChar ':' piece with
      | none => simp only [parseDeclBodyF, hsp, h2c]; exact ih rest hrest
      | some nv =>
        obtain ⟨nn, vv⟩ := nv
        obtain ⟨he2, hnm2⟩ := splitAtChar_eq_some h2c
        simp only [parseDeclBodyF, hsp, h2c, List.all_cons, Bool.and_eq_true]
        constructor
        · have hn1 : ';' ∉ nn := fun hc => hsemi (by rw [he2]; simp [hc])
          have hn2 : '}' ∉ nn := fun hc => hpiece (by rw [he2]; simp [hc])
          have hv1 : ';' ∉ vv := fun hc => hsemi (by rw [he2]; simp [hc])
          have hv2 : '}' ∉ vv := fun hc => hpiece (by rw [he2]; simp [hc])
          simp [wfDecl, contains_false_iff, hnm2, hn1, hn2, hv1, hv2]
        · exact ih rest hrest

lemma splitAtChar_head? {t : Char} {l a b : Str} (h : splitAtChar t l = some (a, b)) :
    a.head? = none ∨ a.head? = l.head? := by
  obtain ⟨he, _⟩ := splitAtChar_eq_some h
  cases a with
  | nil => left; rfl
  | cons c cs => right; rw [he]; rfl

lemma wf_parseRulesF : ∀ (fuel : Nat) (s : Str), (parseRulesF fuel s).all wfRule = true := by
  intro fuel
  induction fuel with
  | zero => intro s; simp [parseRulesF]
  | succ k ih =>
    intro s
    cases hsp : splitAtChar '{' (dropSpaces s) with
    | none => simp [parseRulesF, hsp]
    | some sr =>
      obtain ⟨sel, rest⟩ := sr
      cases hsp2 : splitAtChar '}' rest with
      | none => simp [parseRulesF, hsp, hsp2]
      | some br =>
        obtain ⟨body, rest'⟩ := br
        simp only [parseRulesF, hsp, hsp2, List.all_cons, Bool.and_eq_true]
        constructor
        · have hbrace : '{' ∉ sel := (splitAtChar_eq_some hsp).2
          have hhead : sel.head? ≠ some ' ' := by
            rcases splitAtChar_head? hsp with h | h
            · simp [h]
            · rw [h]; exact dropSpaces_head? s
          have hbody : '}' ∉ body := (splitAtChar_eq_some hsp2).2
          have hall : (parseDeclBody body).all wfDecl = true :=
            wf_parseDeclBodyF (body.length + 1) body hbody
          simp [wfRule, wfSel, hbrace, hhead, hall]
        · exact ih rest'

lemma wf_parseRules (s : Str) : (parseRules s).all wfRule = true := wf_parseRulesF _ s

/-! ## Facts about the suffix test and the declaration accessors -/

lemma endsWithStr_nil (s : Str) : endsWithStr s [] = true := by
  simp [endsWithStr, List.drop_length]

lemma endsWithStr_self (s : Str) : endsWithStr s s = true := by
  simp [endsWithStr, Nat.sub_self, beq_self_eq_true]

lemma getDeclValue_setDecl : ∀ (ds : List Decl) (p v : Str),
    getDeclValue (setDecl ds p v) p = v := by
  intro ds p v
  induction ds with
  | nil => simp [setDecl, getDeclValue, List.find?]
  | cons dc ds ih =>
    by_cases h : dc.name == p
    · simp [setDecl, h, getDeclValue, List.find?]
    · simp only [setDecl]
      rw [if_neg (by simpa using h)]
      simp only [getDeclValue, List.find?_cons] at ih ⊢
      simp only [h]
      exact ih

lemma setDecl_wf {ds : List Decl} {p v : Str} (h : ds.all wfDecl = true)
    (hpv : wfDecl ⟨p, v⟩ = true) : (setDecl ds p v).all wfDecl = true := by
  induction ds with
  | nil => simp [setDecl, hpv]
  | cons dc ds ih =>
    simp only [List.all_cons, Bool.and_eq_true] at h
    by_cases hn : dc.name == p
    · simp [setDecl, hn, hpv, h.2]
    · simp only [setDecl]
      rw [if_neg (by simpa using hn)]
      simp [List.all_cons, h.1, ih h.2]

/-! ## Facts about first-index search -/

lemma findIdx_some_facts {α : Type} {p : α → Bool} : ∀ {l : List α} {j i : Nat},
    List.findIdx? p l j = some i →
    j ≤ i ∧ ∃ x, l[i - j]? = some x ∧ p x = true := by
  intro l
  induction l with
  | nil => intro j i h; simp [List.findIdx?] at h
  | cons a as ih =>
    intro j i h
    rw [List.findIdx?_cons] at h
    by_cases hp : p a = true
    · rw [if_pos hp] at h
      obtain rfl : j = i := by simpa using h
      refine ⟨le_refl _, a, ?_, hp⟩
      simp
    · rw [if_neg hp] at h
      obtain ⟨hle, x, hx, hpx⟩ := ih h
      refine ⟨by omega, x, ?_, hpx⟩
      have : i - j = (i - (j + 1)) + 1 := by omega
      rw [this]
      simpa using hx

lemma findIdx_set {α : Type} {p : α → Bool} {x : α} : ∀ {l : List α} {j i : Nat},
    List.findIdx? p l j = some i → p x = true →
    (l.set (i - j) x).findIdx? p j = some i := by
  intro l
  induction l with
  | nil => intro j i h _; simp [List.findIdx?] at h
  | cons a as ih =>
    intro j i h hx
    rw [List.findIdx?_cons] at h
    by_cases hp : p a = true
    · rw [if_pos hp] at h
      obtain rfl : j = i := by simpa using h
      simp [List.findIdx?_cons, hx]
    · rw [if_neg hp] at h
      have hle : j + 1 ≤ i := (findIdx_some_facts h).1
      have : i - j = (i - (j + 1)) + 1 := by omega
      rw [this]
      simp only [List.set_cons_succ]
      rw [List.findIdx?_cons, if_neg hp]
      exact ih h hx

lemma findIdx_append_first {α : Type} {p : α → Bool} {l₁ l₂ : List α}
    (h : List.findIdx? p l₁ = none) :
    List.findIdx? p (l₁ ++ l₂) = (List.findIdx? p l₂).map (fun i => i + l₁.length) := by
  rw [List.findIdx?_append, h]
  simp

lemma list_decomp {α : Type} : ∀ {l : List α} {i : Nat} {a : α},
    l[i]? = some a → l = l.take i ++ a :: l.drop (i + 1) := by
  intro l
  induction l with
  | nil => intro i a h; simp at h
  | cons x xs ih =>
    intro i a h
    cases i with
    | zero => simp at h; simp [h]
    | succ k =>
      simp at h
      simpa using ih h

/-! ## The getRule scan equals first-index search with the combined test -/

lemma findRuleInSheet_aux (sel : Str) : ∀ (rules : List CSSRule) (i : Nat),
    (((List.enumFrom i rules).filter (fun p => ruleIsStyle p.2)).find?
        (fun p => endsWithStr (ruleSelText p.2) sel)).map Prod.fst =
      List.findIdx? (ruleMatches sel) rules i := by
  intro rules
  induction rules with
  | nil => intro i; simp [List.findIdx?]
  | cons r rs ih =>
    intro i
    rw [List.enumFrom_cons, List.filter_cons, List.findIdx?_cons]
    by_cases hstyle : ruleIsStyle r = true
    · rw [if_pos (by simpa using hstyle)]
      rw [List.find?_cons]
      by_cases hends : endsWithStr (ruleSelText r) sel = true
      · simp only [hends, ruleMatches, hstyle, Bool.true_and]
        simp [hends]
      · have hm : ruleMatches sel r = false := by
          simp [ruleMatches, hstyle]
          simpa using hends
        simp only [hm, Bool.false_eq_true, if_false]
        have hends2 : endsWithStr (ruleSelText r) sel = false := by simpa using hends
        simp only [hends2]
        exact ih (i + 1)
    · have hm : ruleMatches sel r = false := by
        simp [ruleMatches]
        intro hc
        exact absurd hc hstyle
      rw [if_neg (by simpa using hstyle), hm]
      simp only [Bool.false_eq_true, if_false]
      exact ih (i + 1)

lemma findRuleInSheet_eq (rules : List CSSRule) (sel : Str) :
    findRuleInSheet rules sel = List.findIdx? (ruleMatches sel) rules := by
  have := findRuleInSheet_aux sel rules 0
  simpa [findRuleInSheet, List.enum] using this

lemma findRuleInSheet_some {rules : List CSSRule} {sel : Str} {i : Nat}
    (h : findRuleInSheet rules sel = some i) :
    ∃ t ds, rules[i]? = some (CSSRule.styleRule t ds) ∧ endsWithStr t sel = true := by
  rw [findRuleInSheet_eq] at h
  obtain ⟨_, x, hx, hpx⟩ := findIdx_some_facts h
  simp at hx
  cases x with
  | otherRule s => simp [ruleMatches, ruleIsStyle] at hpx
  | styleRule t ds =>
    refine ⟨t, ds, hx, ?_⟩
    simpa [ruleMatches, ruleIsStyle, ruleSelText] using hpx

lemma findRuleInSheet_set {rules : List CSSRule} {sel : Str} {i : Nat} {r : CSSRule}
    (h : findRuleInSheet rules sel = some i) (hr : ruleMatches sel r = true) :
    findRuleInSheet (rules.set i r) sel = some i := by
  rw [findRuleInSheet_eq] at h ⊢
  have := findIdx_set (x := r) h hr
  simpa using this

lemma findRuleInSheet_append_new {rules : List CSSRule} {sel : Str}
    (h : findRuleInSheet rules sel = none) :
    findRuleInSheet (rules ++ [CSSRule.styleRule sel []]) sel = some rules.length := by
  rw [findRuleInSheet_eq] at h ⊢
  rw [findIdx_append_first h]
  have hone : List.findIdx? (ruleMatches sel) [CSSRule.styleRule sel []] = some 0 := by
    rw [List.findIdx?_cons]
    simp [ruleMatches, ruleIsStyle, ruleSelText, endsWithStr_self]
  rw [hone]
  simp

/-! ## Facts about sheet resolution -/

lemma findSheetLocAux_top {n : Str} : ∀ {cs : List ChildNode} {i j : Nat},
    findSheetLocAux n i cs = some (.top j) →
    i ≤ j ∧ ∃ s, cs[j - i]? = some (.styleChild s) ∧ s.marker == some n := by
  intro cs
  induction cs with
  | nil => intro i j h; simp [findSheetLocAux] at h
  | cons c cs ih =>
    intro i j h
    cases c with
    | styleChild s =>
      by_cases hm : s.marker == some n
      · simp only [findSheetLocAux, hm, if_true] at h
        obtain rfl : i = j := by simpa using h
        exact ⟨le_refl _, s, by simp, hm⟩
      · simp only [Bool.not_eq_true] at hm
        simp only [findSheetLocAux, hm, Bool.false_eq_true, if_false] at h
        obtain ⟨hle, s', hx, hm'⟩ := ih h
        refine ⟨by omega, s', ?_, hm'⟩
        rw [show j - i = (j - (i + 1)) + 1 by omega]
        simpa using hx
    | headChild styles =>
      cases hf : findTaggedInStyles styles n with
      | some k => simp only [findSheetLocAux, hf] at h; simp at h
      | none =>
        simp only [findSheetLocAux, hf] at h
        obtain ⟨hle, s', hx, hm'⟩ := ih h
        refine ⟨by omega, s', ?_, hm'⟩
        rw [show j - i = (j - (i + 1)) + 1 by omega]
        simpa using hx
    | otherChild b tag =>
      simp only [findSheetLocAux] at h
      obtain ⟨hle, s', hx, hm'⟩ := ih h
      refine ⟨by omega, s', ?_, hm'⟩
      rw [show j - i = (j - (i + 1)) + 1 by omega]
      simpa using hx

lemma findSheetLocAux_inHead {n : Str} : ∀ {cs : List ChildNode} {i j k : Nat},
    findSheetLocAux n i cs = some (.inHead j k) →
    i ≤ j ∧ ∃ styles, cs[j - i]? = some (.headChild styles) ∧
      findTaggedInStyles styles n = some k := by
  intro cs
  induction cs with
  | nil => intro i j k h; simp [findSheetLocAux] at h
  | cons c cs ih =>
    intro i j k h
    cases c with
    | styleChild s =>
      by_cases hm : s.marker == some n
      · simp only [findSheetLocAux, hm, if_true] at h
        simp at h
      · simp only [Bool.not_eq_true] at hm
        simp only [findSheetLocAux, hm, Bool.false_eq_true, if_false] at h
        obtain ⟨hle, styles, hx, hf⟩ := ih h
        refine ⟨by omega, styles, ?_, hf⟩
        rw [show j - i = (j - (i + 1)) + 1 by omega]
        simpa using hx
    | headChild styles =>
      cases hf : findTaggedInStyles styles n with
      | some k' =>
        simp only [findSheetLocAux, hf] at h
        obtain ⟨hij, hkk⟩ : i = j ∧ k' = k := by simpa using h
        subst hij
        subst hkk
        exact ⟨le_refl _, styles, by simp, hf⟩
      | none =>
        simp only [findSheetLocAux, hf] at h
        obtain ⟨hle, styles', hx, hf'⟩ := ih h
        refine ⟨by omega, styles', ?_, hf'⟩
        rw [show j - i = (j - (i + 1)) + 1 by omega]
        simpa using hx
    | otherChild b tag =>
      simp only [findSheetLocAux] at h
      obtain ⟨hle, styles', hx, hf'⟩ := ih h
      refine ⟨by omega, styles', ?_, hf'⟩
      rw [show j - i = (j - (i + 1)) + 1 by omega]
      simpa using hx

lemma getSheet_of_findSheetLoc {d : Doc} {n : Str} {loc : SheetLoc}
    (h : findSheetLoc d n = some loc) :
    ∃ s, d.getSheet loc = some s ∧ s.marker == some n := by
  cases loc with
  | top j =>
    obtain ⟨_, s, hx, hm⟩ := findSheetLocAux_top h
    rw [Nat.sub_zero] at hx
    exact ⟨s, by simp [Doc.getSheet, hx], hm⟩
  | inHead j k =>
    obtain ⟨_, styles, hx, hf⟩ := findSheetLocAux_inHead h
    rw [Nat.sub_zero] at hx
    obtain ⟨_, s, hs, hm⟩ := findIdx_some_facts hf
    rw [Nat.sub_zero] at hs
    exact ⟨s, by simp [Doc.getSheet, hx, hs], hm⟩

lemma findSheetLocAux_set_top {n : Str} {s' : StyleNode} (hm' : s'.marker == some n) :
    ∀ {cs : List ChildNode} {i j : Nat}, findSheetLocAux n i cs = some (.top j) →
    findSheetLocAux n i (cs.set (j - i) (.styleChild s')) = some (.top j) := by
  intro cs
  induction cs with
  | nil => intro i j h; simp [findSheetLocAux] at h
  | cons c cs ih =>
    intro i j h
    cases c with
    | styleChild s =>
      by_cases hm : s.marker == some n
      · simp only [findSheetLocAux, hm, if_true] at h
        obtain rfl : i = j := by simpa using h
        simp [findSheetLocAux, hm']
      · simp only [Bool.not_eq_true] at hm
        simp only [findSheetLocAux, hm, Bool.false_eq_true, if_false] at h
        have hle : i + 1 ≤ j := (findSheetLocAux_top h).1
        rw [show j - i = (j - (i + 1)) + 1 by omega, List.set_cons_succ]
        simp only [findSheetLocAux, hm, Bool.false_eq_true, if_false]
        exact ih h
    | headChild styles =>
      cases hf : findTaggedInStyles styles n with
      | some k => simp only [findSheetLocAux, hf] at h; simp at h
      | none =>
        simp only [findSheetLocAux, hf] at h
        have hle : i + 1 ≤ j := (findSheetLocAux_top h).1
        rw [show j - i = (j - (i + 1)) + 1 by omega, List.set_cons_succ]
        simp only [findSheetLocAux, hf]
        exact ih h
    | otherChild b tag =>
      simp only [findSheetLocAux] at h
      have hle : i + 1 ≤ j := (findSheetLocAux_top h).1
      rw [show j - i = (j - (i + 1)) + 1 by omega, List.set_cons_succ]
      simp only [findSheetLocAux]
      exact ih h

lemma findSheetLocAux_set_inHead {n : Str} {s' : StyleNode} (hm' : s'.marker == some n) :
    ∀ {cs : List ChildNode} {i j k : Nat} {styles : List StyleNode},
    findSheetLocAux n i cs = some (.inHead j k) →
    cs[j - i]? = some (.headChild styles) →
    findSheetLocAux n i (cs.set (j - i) (.headChild (styles.set k s'))) = some (.inHead j k) := by
  intro cs
  induction cs with
  | nil => intro i j k styles h _; simp [findSheetLocAux] at h
  | cons c cs ih =>
    intro i j k styles h hx
    cases c with
    | styleChild s =>
      by_cases hm : s.marker == some n
      · simp only [findSheetLocAux, hm, if_true] at h
        simp at h
      · simp only [Bool.not_eq_true] at hm
        simp only [findSheetLocAux, hm, Bool.false_eq_true, if_false] at h
        have hle : i + 1 ≤ j := (findSheetLocAux_inHead h).1
        rw [show j - i = (j - (i + 1)) + 1 by omega] at hx ⊢
        rw [List.set_cons_succ]
        simp only [findSheetLocAux, hm, Bool.false_eq_true, if_false]
        exact ih h (by simpa using hx)
    | headChild styles₀ =>
      cases hf : findTaggedInStyles styles₀ n with
      | some k' =>
        simp only [findSheetLocAux, hf] at h
        obtain ⟨hij, hkk⟩ : i = j ∧ k' = k := by simpa using h
        subst hij
        subst hkk
        have hst : styles = styles₀ := by
          rw [Nat.sub_self] at hx
          have := hx
          simp at this
          exact this.symm
        subst hst
        rw [Nat.sub_self, List.set_cons_zero]
        have hset : findTaggedInStyles (styles.set k' s') n = some k' := by
          have h0 := findIdx_set (x := s') (l := styles) (j := 0) (i := k')
            (by simpa [findTaggedInStyles] using hf) hm'
          rw [Nat.sub_zero] at h0
          simpa [findTaggedInStyles] using h0
        simp [findSheetLocAux, hset]
      | none =>
        simp only [findSheetLocAux, hf] at h
        have hle : i + 1 ≤ j := (findSheetLocAux_inHead h).1
        rw [show j - i = (j - (i + 1)) + 1 by omega] at hx ⊢
        rw [List.set_cons_succ]
        simp only [findSheetLocAux, hf]
        exact ih h (by simpa using hx)
    | otherChild b tag =>
      simp only [findSheetLocAux] at h
      have hle : i + 1 ≤ j := (findSheetLocAux_inHead h).1
      rw [show j - i = (j - (i + 1)) + 1 by omega] at hx ⊢
      rw [List.set_cons_succ]
      simp only [findSheetLocAux]
      exact ih h (by simpa using hx)

lemma setSheet_frame {d : Doc} {n : Str} {loc : SheetLoc} {s s' : StyleNode}
    (h : findSheetLoc d n = some loc) (hs : d.getSheet loc = some s)
    (hm : s'.marker = s.marker) :
    findSheetLoc (d.setSheet loc s') n = some loc ∧
      (d.setSheet loc s').getSheet loc = some s' := by
  obtain ⟨s₀, hs₀, hm₀⟩ := getSheet_of_findSheetLoc h
  rw [hs₀] at hs
  have hseq : s₀ = s := by simpa using hs
  rw [hseq] at hs₀ hm₀
  have hm' : s'.marker == some n := by rw [hm]; exact hm₀
  cases loc with
  | top j =>
    obtain ⟨_, s₁, hx, _⟩ := findSheetLocAux_top (i := 0) h
    rw [Nat.sub_zero] at hx
    have hlen : j < d.children.length := by
      rcases List.getElem?_eq_some_iff.mp hx with ⟨hlt, _⟩
      exact hlt
    constructor
    · have := findSheetLocAux_set_top hm' (i := 0) h
      rw [Nat.sub_zero] at this
      exact this
    · simp [Doc.setSheet, Doc.getSheet, List.getElem?_set_eq hlen]
  | inHead j k =>
    obtain ⟨_, styles, hx, hf⟩ := findSheetLocAux_inHead (i := 0) h
    rw [Nat.sub_zero] at hx
    have hlen : j < d.children.length := by
      rcases List.getElem?_eq_some_iff.mp hx with ⟨hlt, _⟩
      exact hlt
    have hsk : styles[k]? = some s := by
      have : d.getSheet (.inHead j k) = styles[k]? := by simp [Doc.getSheet, hx]
      rw [hs₀] at this
      exact this.symm
    have hklen : k < styles.length := by
      rcases List.getElem?_eq_some_iff.mp hsk with ⟨hlt, _⟩
      exact hlt
    constructor
    · have := findSheetLocAux_set_inHead hm' (i := 0) h
        (by rw [Nat.sub_zero]; exact hx)
      rw [Nat.sub_zero] at this
      simp only [Doc.setSheet, hx]
      exact this
    · simp [Doc.setSheet, Doc.getSheet, hx, List.getElem?_set_eq hlen,
        List.getElem?_set_eq hklen]

/-! ## Counting tagged sheets and the insertion policy -/

lemma sum_map_set {α : Type} (f : α → Nat) : ∀ {l : List α} {i : Nat} {a : α} (b : α),
    l[i]? = some a → ((l.set i b).map f).sum + f a = (l.map f).sum + f b := by
  intro l
  induction l with
  | nil => intro i a b h; simp at h
  | cons x xs ih =>
    intro i a b h
    cases i with
    | zero =>
      simp at h
      subst h
      simp [List.set_cons_zero]
      omega
    | succ k =>
      simp at h
      have := ih b h
      rw [List.set_cons_succ, List.map_cons, List.map_cons, List.sum_cons, List.sum_cons]
      omega

lemma findTaggedInStyles_none {styles : List StyleNode} {n : Str}
    (h : (styles.filter (fun s => s.marker == some n)).length = 0) :
    findTaggedInStyles styles n = none := by
  rw [findTaggedInStyles, List.findIdx?_eq_none_iff]
  intro x hx
  by_contra hb
  have hmem : x ∈ styles.filter (fun s => s.marker == some n) :=
    List.mem_filter.mpr ⟨hx, by simpa using hb⟩
  rw [List.length_eq_zero.mp h] at hmem
  simp at hmem

lemma findTaggedInStyles_filter_pos {styles : List StyleNode} {n : Str} {k : Nat}
    (h : findTaggedInStyles styles n = some k) :
    0 < (styles.filter (fun s => s.marker == some n)).length := by
  obtain ⟨_, x, hx, hpx⟩ := findIdx_some_facts h
  have hxm : x ∈ styles := List.getElem?_mem hx
  have : x ∈ styles.filter (fun s => s.marker == some n) :=
    List.mem_filter.mpr ⟨hxm, hpx⟩
  exact List.length_pos.mpr (fun he => by rw [he] at this; simp at this)

lemma findSheetLocAux_isSome_iff {n : Str} : ∀ (cs : List ChildNode) (i : Nat),
    (∃ loc, findSheetLocAux n i cs = some loc) ↔
      0 < (cs.map (ChildNode.taggedCount n)).sum := by
  intro cs
  induction cs with
  | nil => intro i; simp [findSheetLocAux]
  | cons c cs ih =>
    intro i
    cases c with
    | styleChild s =>
      by_cases hm : s.marker == some n
      · simp only [findSheetLocAux, hm, if_true]
        constructor
        · intro _
          simp [ChildNode.taggedCount, hm]
        · intro _
          exact ⟨.top i, rfl⟩
      · simp only [Bool.not_eq_true] at hm
        simp only [findSheetLocAux, hm, Bool.false_eq_true, if_false]
        rw [ih (i + 1)]
        simp [ChildNode.taggedCount, hm]
    | headChild styles =>
      cases hf : findTaggedInStyles styles n with
      | some k =>
        simp only [findSheetLocAux, hf]
        constructor
        · intro _
          have := findTaggedInStyles_filter_pos hf
          simp only [List.map_cons, List.sum_cons, ChildNode.taggedCount]
          omega
        · intro _
          exact ⟨.inHead i k, rfl⟩
      | none =>
        simp only [findSheetLocAux, hf]
        rw [ih (i + 1)]
        have hz : (styles.filter (fun s => s.marker == some n)).length = 0 := by
          by_contra hb
          obtain ⟨x, hx⟩ := List.length_pos_iff_exists_mem.mp (Nat.pos_of_ne_zero hb)
          obtain ⟨hxs, hpx⟩ := List.mem_filter.mp hx
          rw [findTaggedInStyles, List.findIdx?_eq_none_iff] at hf
          have := hf x hxs
          rw [this] at hpx
          simp at hpx
        simp [ChildNode.taggedCount, hz]
    | otherChild b tag =>
      simp only [findSheetLocAux]
      rw [ih (i + 1)]
      simp [ChildNode.taggedCount]

lemma findSheetLoc_none_iff (d : Doc) (n : Str) :
    findSheetLoc d n = none ↔ d.taggedCount n = 0 := by
  have h := findSheetLocAux_isSome_iff (n := n) d.children 0
  constructor
  · intro hn
    by_contra hb
    obtain ⟨loc, hloc⟩ := h.mpr (Nat.pos_of_ne_zero hb)
    rw [findSheetLoc] at hn
    rw [hn] at hloc
    simp at hloc
  · intro hz
    cases hl : findSheetLoc d n with
    | none => rfl
    | some loc =>
      have := h.mp ⟨loc, hl⟩
      rw [Doc.taggedCount] at hz
      omega

lemma scan_append_zero {n : Str} : ∀ {cs₁ : List ChildNode} (i : Nat) (cs₂ : List ChildNode),
    (cs₁.map (ChildNode.taggedCount n)).sum = 0 →
    findSheetLocAux n i (cs₁ ++ cs₂) = findSheetLocAux n (i + cs₁.length) cs₂ := by
  intro cs₁
  induction cs₁ with
  | nil => intro i cs₂ _; simp
  | cons c cs ih =>
    intro i cs₂ h
    simp only [List.map_cons, List.sum_cons] at h
    have hc : ChildNode.taggedCount n c = 0 := by omega
    have hrest : (cs.map (ChildNode.taggedCount n)).sum = 0 := by omega
    cases c with
    | styleChild s =>
      have hm : (s.marker == some n) = false := by
        by_contra hb
        simp only [Bool.not_eq_false] at hb
        simp [ChildNode.taggedCount, hb] at hc
      rw [List.cons_append]
      simp only [findSheetLocAux, hm, Bool.false_eq_true, if_false]
      rw [ih (i + 1) cs₂ hrest, List.length_cons]
      congr 1
      omega
    | headChild styles =>
      have hz : (styles.filter (fun s => s.marker == some n)).length = 0 := by
        simpa [ChildNode.taggedCount] using hc
      have hf := findTaggedInStyles_none hz
      rw [List.cons_append]
      simp only [findSheetLocAux, hf]
      rw [ih (i + 1) cs₂ hrest, List.length_cons]
      congr 1
      omega
    | otherChild b tag =>
      rw [List.cons_append]
      simp only [findSheetLocAux]
      rw [ih (i + 1) cs₂ hrest, List.length_cons]
      congr 1
      omega

lemma isHeadChild_shape {c : ChildNode} (h : isHeadChild c = true) :
    ∃ styles, c = ChildNode.headChild styles := by
  cases c with
  | headChild styles => exact ⟨styles, rfl⟩
  | styleChild s => simp [isHeadChild] at h
  | otherChild b t => simp [isHeadChild] at h

lemma taggedCount_insert {d : Doc} {node : StyleNode} {n : Str}
    (hm : node.marker == some n) :
    (insertNewStyleNode d node).taggedCount n = d.taggedCount n + 1 := by
  cases hh : d.children.findIdx? isHeadChild with
  | some i =>
    obtain ⟨_, c, hc, hpc⟩ := findIdx_some_facts hh
    rw [Nat.sub_zero] at hc
    obtain ⟨styles, rfl⟩ := isHeadChild_shape hpc
    simp only [insertNewStyleNode, hh, hc]
    have hsum := sum_map_set (ChildNode.taggedCount n) (l := d.children) (i := i)
      (ChildNode.headChild (styles ++ [node])) hc
    simp only [Doc.taggedCount]
    have hcount : ChildNode.taggedCount n (ChildNode.headChild (styles ++ [node])) =
        ChildNode.taggedCount n (ChildNode.headChild styles) + 1 := by
      simp [ChildNode.taggedCount, List.filter_append, hm]
    omega
  | none =>
    cases hst : d.children.findIdx? isStyleChild with
    | some i0 =>
      cases hns : d.children.findIdx? (fun c => !isStyleChild c) with
      | some k =>
        simp only [insertNewStyleNode, hh, hst, hns, Doc.taggedCount]
        have hsplit : (d.children.map (ChildNode.taggedCount n)).sum =
            ((d.children.take k).map (ChildNode.taggedCount n)).sum +
            ((d.children.drop k).map (ChildNode.taggedCount n)).sum := by
          conv_lhs => rw [← List.take_append_drop k d.children]
          rw [List.map_append, List.sum_append]
        rw [List.map_append, List.sum_append, List.map_cons, List.sum_cons]
        have hnode : ChildNode.taggedCount n (ChildNode.styleChild node) = 1 := by
          simp [ChildNode.taggedCount, hm]
        omega
      | none =>
        simp only [insertNewStyleNode, hh, hst, hns, Doc.taggedCount]
        rw [List.map_append, List.sum_append]
        have hnode : ChildNode.taggedCount n (ChildNode.styleChild node) = 1 := by
          simp [ChildNode.taggedCount, hm]
        simp [hnode]
    | none =>
      simp only [insertNewStyleNode, hh, hst, Doc.taggedCount, List.map_cons, List.sum_cons]
      have hnode : ChildNode.taggedCount n (ChildNode.styleChild node) = 1 := by
        simp [ChildNode.taggedCount, hm]
      omega

lemma sum_zero_of_parts {d : Doc} {n : Str} (hc : d.taggedCount n = 0) (k : Nat) :
    ((d.children.take k).map (ChildNode.taggedCount n)).sum = 0 ∧
    ((d.children.drop k).map (ChildNode.taggedCount n)).sum = 0 := by
  have hsplit : (d.children.map (ChildNode.taggedCount n)).sum =
      ((d.children.take k).map (ChildNode.taggedCount n)).sum +
      ((d.children.drop k).map (ChildNode.taggedCount n)).sum := by
    conv_lhs => rw [← List.take_append_drop k d.children]
    rw [List.map_append, List.sum_append]
  rw [Doc.taggedCount] at hc
  omega

lemma insert_resolves {d : Doc} {node : StyleNode} {n : Str}
    (hc : d.taggedCount n = 0) (hm : node.marker == some n) :
    ∃ loc, findSheetLoc (insertNewStyleNode d node) n = some loc ∧
      (insertNewStyleNode d node).getSheet loc = some node := by
  cases hh : d.children.findIdx? isHeadChild with
  | some i =>
    obtain ⟨_, c, hci, hpc⟩ := findIdx_some_facts hh
    rw [Nat.sub_zero] at hci
    obtain ⟨styles, rfl⟩ := isHeadChild_shape hpc
    have hlen : i < d.children.length := by
      rcases List.getElem?_eq_some_iff.mp hci with ⟨hlt, _⟩
      exact hlt
    have hdecomp : d.children = d.children.take i ++
        ChildNode.headChild styles :: d.children.drop (i + 1) := list_decomp hci
    have hz := sum_zero_of_parts hc i
    have hzstyles : (styles.filter (fun s => s.marker == some n)).length = 0 := by
      have : (d.children.map (ChildNode.taggedCount n)).sum = 0 := hc
      rw [hdecomp, List.map_append, List.sum_append, List.map_cons, List.sum_cons] at this
      simp only [ChildNode.taggedCount] at this
      omega
    have hset : d.children.set i (ChildNode.headChild (styles ++ [node])) =
        d.children.take i ++ ChildNode.headChild (styles ++ [node]) ::
          d.children.drop (i + 1) := by
      rw [List.set_eq_take_append_cons_drop, if_pos hlen]
    have htake : (d.children.take i).length = i := by
      rw [List.length_take]
      omega
    have hfind : findSheetLoc ⟨d.children.set i (ChildNode.headChild (styles ++ [node]))⟩ n =
        some (.inHead i styles.length) := by
      rw [findSheetLoc, hset, scan_append_zero 0 _ hz.1, htake]
      have htag : findTaggedInStyles (styles ++ [node]) n = some styles.length := by
        rw [findTaggedInStyles, findIdx_append_first (findTaggedInStyles_none hzstyles)]
        rw [List.findIdx?_cons, if_pos hm]
        simp
      simp [findSheetLocAux, htag]
    refine ⟨.inHead i styles.length, ?_, ?_⟩
    · simp only [insertNewStyleNode, hh, hci]
      exact hfind
    · simp only [insertNewStyleNode, hh, hci, Doc.getSheet]
      rw [List.getElem?_set_self hlen]
      simp [List.getElem?_append_right (le_refl styles.length)]
  | none =>
    cases hst : d.children.findIdx? isStyleChild with
    | some i0 =>
      cases hns : d.children.findIdx? (fun c => !isStyleChild c) with
      | some k =>
        have hklen : k < d.children.length := by
          obtain ⟨_, x, hx, _⟩ := findIdx_some_facts hns
          rw [Nat.sub_zero] at hx
          rcases List.getElem?_eq_some_iff.mp hx with ⟨hlt, _⟩
          exact hlt
        have htake : (d.children.take k).length = k := by
          rw [List.length_take]
          omega
        have hz := sum_zero_of_parts hc k
        refine ⟨.top k, ?_, ?_⟩
        · simp only [insertNewStyleNode, hh, hst, hns]
          rw [findSheetLoc, scan_append_zero 0 _ hz.1, htake]
          simp [findSheetLocAux, hm]
        · simp only [insertNewStyleNode, hh, hst, hns, Doc.getSheet]
          rw [List.getElem?_append_right (by omega : (d.children.take k).length ≤ k)]
          rw [htake]
          simp
      | none =>
        refine ⟨.top d.children.length, ?_, ?_⟩
        · simp only [insertNewStyleNode, hh, hst, hns]
          rw [findSheetLoc, scan_append_zero 0 _ hc]
          simp [findSheetLocAux, hm]
        · simp only [insertNewStyleNode, hh, hst, hns, Doc.getSheet]
          rw [List.getElem?_append_right (le_refl _)]
          simp
    | none =>
      refine ⟨.top 0, ?_, ?_⟩
      · simp only [insertNewStyleNode, hh, hst]
        simp [findSheetLoc, findSheetLocAux, hm]
      · simp only [insertNewStyleNode, hh, hst, Doc.getSheet]
        simp

/-! ## Behavior of the repository operations -/

lemma getStylesheetFn_found {cfg : RepoCfg} {d : Doc} {n : Str} {loc : SheetLoc}
    (h : findSheetLoc d n = some loc) (strict : Bool) :
    getStylesheetFn cfg d n strict = (some loc, []) := by
  simp [getStylesheetFn, h]

lemma getStylesheetFn_miss_strict {cfg : RepoCfg} {d : Doc} {n : Str}
    (h : findSheetLoc d n = none) :
    getStylesheetFn cfg d n true =
      (none, [DomEvent.unknownStylesheet n eventEmitterType cfg.name]) := by
  simp [getStylesheetFn, h]

lemma getStylesheetFn_miss_lax {cfg : RepoCfg} {d : Doc} {n : Str}
    (h : findSheetLoc d n = none) :
    getStylesheetFn cfg d n false = (none, []) := by
  simp [getStylesheetFn, h]

lemma getOrCreateStylesheet_resolved {cfg : RepoCfg} {d : Doc} {n : Str} {loc : SheetLoc}
    (h : findSheetLoc d n = some loc) :
    getOrCreateStylesheetFn cfg d n = (some loc, d, []) := by
  simp [getOrCreateStylesheetFn, getStylesheetFn, h]

lemma getOrCreateStylesheet_created {cfg : RepoCfg} {d : Doc} {n : Str}
    (h : findSheetLoc d n = none) :
    ∃ loc, getOrCreateStylesheetFn cfg d n =
        (some loc, insertNewStyleNode d ⟨some n, [], []⟩, []) ∧
      findSheetLoc (insertNewStyleNode d ⟨some n, [], []⟩) n = some loc ∧
      (insertNewStyleNode d ⟨some n, [], []⟩).getSheet loc = some ⟨some n, [], []⟩ := by
  have hc := (findSheetLoc_none_iff d n).mp h
  obtain ⟨loc, hfind, hget⟩ := @insert_resolves d ⟨some n, [], []⟩ n hc (by simp)
  refine ⟨loc, ?_, hfind, hget⟩
  simp [getOrCreateStylesheetFn, getStylesheetFn, h, hfind]

lemma createOrUpdateStylesheet_resolved {cfg : RepoCfg} {d : Doc} {n contents : Str}
    {loc : SheetLoc} {s : StyleNode}
    (h : findSheetLoc d n = some loc) (hs : d.getSheet loc = some s) :
    createOrUpdateStylesheetFn cfg d n contents =
      (d.setSheet loc (setInnerHTML s contents), []) := by
  simp [createOrUpdateStylesheetFn, getOrCreateStylesheet_resolved h, hs]

lemma getRuleFn_found {cfg : RepoCfg} {d : Doc} {n sel : Str} {loc : SheetLoc}
    {s : StyleNode} {i : Nat}
    (h : findSheetLoc d n = some loc) (hs : d.getSheet loc = some s)
    (hr : findRuleInSheet s.rules sel = some i) (strict : Bool) :
    getRuleFn cfg d n sel strict = (some (loc, i), []) := by
  simp [getRuleFn, getStylesheetFn_found h strict, hs, hr]

lemma getRuleFn_ruleMiss_strict {cfg : RepoCfg} {d : Doc} {n sel : Str} {loc : SheetLoc}
    {s : StyleNode}
    (h : findSheetLoc d n = some loc) (hs : d.getSheet loc = some s)
    (hr : findRuleInSheet s.rules sel = none) :
    getRuleFn cfg d n sel true =
      (none, [DomEvent.unknownCssRule n sel eventEmitterType cfg.name]) := by
  simp [getRuleFn, getStylesheetFn_found h true, hs, hr]

lemma getRuleFn_ruleMiss_lax {cfg : RepoCfg} {d : Doc} {n sel : Str} {loc : SheetLoc}
    {s : StyleNode}
    (h : findSheetLoc d n = some loc) (hs : d.getSheet loc = some s)
    (hr : findRuleInSheet s.rules sel = none) :
    getRuleFn cfg d n sel false = (none, []) := by
  simp [getRuleFn, getStylesheetFn_found h false, hs, hr]

lemma getRuleFn_sheetMiss_strict {cfg : RepoCfg} {d : Doc} {n sel : Str}
    (h : findSheetLoc d n = none) :
    getRuleFn cfg d n sel true =
      (none, [DomEvent.unknownStylesheet n eventEmitterType cfg.name]) := by
  simp [getRuleFn, getStylesheetFn_miss_strict h]

lemma getRuleFn_sheetMiss_lax {cfg : RepoCfg} {d : Doc} {n sel : Str}
    (h : findSheetLoc d n = none) :
    getRuleFn cfg d n sel false = (none, []) := by
  simp [getRuleFn, getStylesheetFn_miss_lax h]

lemma getRuleFn_lax_silent (cfg : RepoCfg) (d : Doc) (n sel : Str) :
    (getRuleFn cfg d n sel false).2 = [] := by
  cases h : findSheetLoc d n with
  | none => simp [getRuleFn_sheetMiss_lax h]
  | some loc =>
    cases hs : d.getSheet loc with
    | none => simp [getRuleFn, getStylesheetFn_found h false, hs]
    | some s =>
      cases hr : findRuleInSheet s.rules sel with
      | none => simp [getRuleFn_ruleMiss_lax h hs hr]
      | some i => simp [getRuleFn_found h hs hr false]

lemma getOrCreateRule_existing {cfg : RepoCfg} {d : Doc} {n sel : Str} {loc : SheetLoc}
    {s : StyleNode} {i : Nat}
    (h : findSheetLoc d n = some loc) (hs : d.getSheet loc = some s)
    (hr : findRuleInSheet s.rules sel = some i) :
    getOrCreateRuleFn cfg d n sel = (some (loc, i), d, []) := by
  simp [getOrCreateRuleFn, getRuleFn_found h hs hr false]

lemma getOrCreateRule_extend {cfg : RepoCfg} {d : Doc} {n sel : Str} {loc : SheetLoc}
    {s : StyleNode}
    (h : findSheetLoc d n = some loc) (hs : d.getSheet loc = some s)
    (hr : findRuleInSheet s.rules sel = none)
    (hwf : s.rules.all wfRule = true) (hsel : wfSel sel = true) :
    getOrCreateRuleFn cfg d n sel =
      (some (loc, s.rules.length),
        d.setSheet loc ⟨s.marker, serializeStylesheet s.rules ++ ' ' :: sel ++ ['{', '}'],
          s.rules ++ [CSSRule.styleRule sel []]⟩, []) := by
  have hs2 : setInnerHTML s (serializeStylesheet s.rules ++ ' ' :: sel ++ ['{', '}']) =
      ⟨s.marker, serializeStylesheet s.rules ++ ' ' :: sel ++ ['{', '}'],
        s.rules ++ [CSSRule.styleRule sel []]⟩ := by
    rw [setInnerHTML, parseRules_serialize_newRule hwf hsel]
  obtain ⟨hf₂, hg₂⟩ := @setSheet_frame d n loc s
    ⟨s.marker, serializeStylesheet s.rules ++ ' ' :: sel ++ ['{', '}'],
      s.rules ++ [CSSRule.styleRule sel []]⟩ h hs rfl
  simp only [getOrCreateRuleFn, getRuleFn_ruleMiss_lax h hs hr,
    getOrCreateStylesheet_resolved h, hs, createOrUpdateStylesheet_resolved h hs, hs2,
    getOrCreateStylesheet_resolved hf₂, hg₂, List.length_append, List.length_cons,
    List.length_nil, List.append_nil, List.nil_append]
  simp

lemma getOrCreateRule_fresh {cfg : RepoCfg} {d : Doc} {n sel : Str}
    (h : findSheetLoc d n = none) (hsel : wfSel sel = true) :
    ∃ loc,
      getOrCreateRuleFn cfg d n sel =
        (some (loc, 0),
          (insertNewStyleNode d ⟨some n, [], []⟩).setSheet loc
            ⟨some n, ' ' :: sel ++ ['{', '}'], [CSSRule.styleRule sel []]⟩, []) ∧
      findSheetLoc ((insertNewStyleNode d ⟨some n, [], []⟩).setSheet loc
          ⟨some n, ' ' :: sel ++ ['{', '}'], [CSSRule.styleRule sel []]⟩) n = some loc ∧
      ((insertNewStyleNode d ⟨some n, [], []⟩).setSheet loc
          ⟨some n, ' ' :: sel ++ ['{', '}'], [CSSRule.styleRule sel []]⟩).getSheet loc =
        some ⟨some n, ' ' :: sel ++ ['{', '}'], [CSSRule.styleRule sel []]⟩ := by
  obtain ⟨loc, hoc, hf₁, hg₁⟩ := @getOrCreateStylesheet_created cfg d n h
  have hcl : serializeStylesheet (StyleNode.mk (some n) [] []).rules ++
      ' ' :: sel ++ ['{', '}'] = (' ' :: sel) ++ ['{', '}'] := by
    simp [serializeStylesheet]
  have hs2 : setInnerHTML ⟨some n, [], []⟩
      (serializeStylesheet (StyleNode.mk (some n) [] []).rules ++ ' ' :: sel ++ ['{', '}']) =
      ⟨some n, ' ' :: sel ++ ['{', '}'], [CSSRule.styleRule sel []]⟩ := by
    rw [setInnerHTML, parseRules_serialize_newRule (by simp) hsel]
    simp [serializeStylesheet]
  obtain ⟨hf₂, hg₂⟩ := @setSheet_frame (insertNewStyleNode d ⟨some n, [], []⟩) n loc
    ⟨some n, [], []⟩
    ⟨some n, ' ' :: sel ++ ['{', '}'], [CSSRule.styleRule sel []]⟩ hf₁ hg₁ rfl
  refine ⟨loc, ?_, hf₂, hg₂⟩
  simp only [getOrCreateRuleFn, getRuleFn_sheetMiss_lax h, hoc, hg₁,
    createOrUpdateStylesheet_resolved hf₁ hg₁, hs2,
    getOrCreateStylesheet_resolved hf₂, hg₂]
  simp

lemma findRuleInSheet_nil (sel : Str) : findRuleInSheet [] sel = none := by
  simp [findRuleInSheet]

lemma getOrCreateRule_spec {cfg : RepoCfg} {d : Doc} {n sel : Str}
    (hwf : sheetRulesWF d n) (hsel : wfSel sel = true) :
    ∃ loc i d' s', getOrCreateRuleFn cfg d n sel = (some (loc, i), d', []) ∧
      findSheetLoc d' n = some loc ∧ d'.getSheet loc = some s' ∧
      (s'.marker == some n) = true ∧ s'.rules.all wfRule = true ∧
      findRuleInSheet s'.rules sel = some i := by
  cases h : findSheetLoc d n with
  | none =>
    obtain ⟨loc, hoc, hf, hg⟩ := @getOrCreateRule_fresh cfg d n sel h hsel
    refine ⟨loc, 0, _, _, hoc, hf, hg, by simp, ?_, ?_⟩
    · simp [wfRule, hsel]
    · have := findRuleInSheet_append_new (findRuleInSheet_nil sel)
      simpa using this
  | some loc =>
    obtain ⟨s, hs, hmk⟩ := getSheet_of_findSheetLoc h
    have hwfs := hwf loc s h hs
    cases hr : findRuleInSheet s.rules sel with
    | some i =>
      rw [getOrCreateRule_existing h hs hr]
      exact ⟨loc, i, d, s, rfl, h, hs, hmk, hwfs, hr⟩
    | none =>
      rw [getOrCreateRule_extend h hs hr hwfs hsel]
      obtain ⟨hf₂, hg₂⟩ := @setSheet_frame d n loc s
        ⟨s.marker, serializeStylesheet s.rules ++ ' ' :: sel ++ ['{', '}'],
          s.rules ++ [CSSRule.styleRule sel []]⟩ h hs rfl
      refine ⟨loc, s.rules.length, _, _, rfl, hf₂, hg₂, hmk, ?_, ?_⟩
      · simp only [List.all_append, Bool.and_eq_true]
        exact ⟨hwfs, by simp [wfRule, hsel]⟩
      · exact findRuleInSheet_append_new hr

lemma setProperty_spec {cfg : RepoCfg} {d : Doc} {n sel p v : Str}
    (hwf : sheetRulesWF d n) (hsel : wfSel sel = true) (hpv : wfDecl ⟨p, v⟩ = true) :
    ∃ loc i d₂ s₂, setPropertyFn cfg d n sel p v = (d₂, []) ∧
      findSheetLoc d₂ n = some loc ∧ d₂.getSheet loc = some s₂ ∧
      s₂.content = serializeStylesheet s₂.rules ∧
      s₂.rules.all wfRule = true ∧
      findRuleInSheet s₂.rules sel = some i ∧
      ∃ r, s₂.rules[i]? = some r ∧ ruleIsStyle r = true ∧
        endsWithStr (ruleSelText r) sel = true ∧ rulePropValue r p = v := by
  obtain ⟨loc, i, d', s', hoc, hf, hg, hmk, hwf', hfind⟩ :=
    @getOrCreateRule_spec cfg d n sel hwf hsel
  obtain ⟨t, ds, hri, hends⟩ := findRuleInSheet_some hfind
  have hilen : i < s'.rules.length := by
    rcases List.getElem?_eq_some_iff.mp hri with ⟨hlt, _⟩
    exact hlt
  have hwfold : wfRule (CSSRule.styleRule t ds) = true :=
    List.all_eq_true.mp hwf' _ (List.getElem?_mem hri)
  have hwfnew : wfRule (CSSRule.styleRule t (setDecl ds p v)) = true := by
    simp only [wfRule, Bool.and_eq_true] at hwfold ⊢
    exact ⟨hwfold.1, setDecl_wf hwfold.2 hpv⟩
  have hmod : modifyRule s'.rules i (setPropOnRule · p v) =
      s'.rules.set i (CSSRule.styleRule t (setDecl ds p v)) := by
    rw [modifyRule, hri]
    rfl
  have hwfset : (s'.rules.set i (CSSRule.styleRule t (setDecl ds p v))).all wfRule = true := by
    rw [List.all_eq_true]
    intro x hx
    rcases List.mem_or_eq_of_mem_set hx with hx' | rfl
    · exact List.all_eq_true.mp hwf' x hx'
    · exact hwfnew
  obtain ⟨hf₂, hg₂⟩ := @setSheet_frame d' n loc s'
    ⟨s'.marker, s'.content, s'.rules.set i (CSSRule.styleRule t (setDecl ds p v))⟩ hf hg rfl
  have hser : parseRules (serializeStylesheet
      (s'.rules.set i (CSSRule.styleRule t (setDecl ds p v)))) =
      s'.rules.set i (CSSRule.styleRule t (setDecl ds p v)) :=
    parseRules_serialize hwfset
  obtain ⟨hf₃, hg₃⟩ := @setSheet_frame
    (d'.setSheet loc ⟨s'.marker, s'.content,
      s'.rules.set i (CSSRule.styleRule t (setDecl ds p v))⟩) n loc
    ⟨s'.marker, s'.content, s'.rules.set i (CSSRule.styleRule t (setDecl ds p v))⟩
    ⟨s'.marker, serializeStylesheet (s'.rules.set i (CSSRule.styleRule t (setDecl ds p v))),
      s'.rules.set i (CSSRule.styleRule t (setDecl ds p v))⟩ hf₂ hg₂ rfl
  refine ⟨loc, i, _, _, ?_, hf₃, hg₃, rfl, hwfset, ?_, ?_⟩
  · simp only [setPropertyFn, hoc, hg, hmod, refreshStylesheetFn, hg₂, setInnerHTML, hser]
  · exact findRuleInSheet_set hfind (by simp [ruleMatches, ruleIsStyle, ruleSelText, hends])
  · refine ⟨CSSRule.styleRule t (setDecl ds p v), ?_, rfl, ?_, ?_⟩
    · rw [List.getElem?_set_self hilen]
    · simpa [ruleSelText] using hends
    · simp [rulePropValue, getDeclValue_setDecl]

lemma createOrUpdateRule_spec {cfg : RepoCfg} {d : Doc} {n sel contents : Str}
    (hwf : sheetRulesWF d n) (hsel : wfSel sel = true) :
    ∃ loc d₂ s₂, createOrUpdateRuleFn cfg d n sel contents = (d₂, []) ∧
      findSheetLoc d₂ n = some loc ∧ d₂.getSheet loc = some s₂ ∧
      s₂.content = serializeStylesheet s₂.rules ∧
      s₂.rules.all wfRule = true := by
  obtain ⟨loc, i, d', s', hoc, hf, hg, hmk, hwf', hfind⟩ :=
    @getOrCreateRule_spec cfg d n sel hwf hsel
  have hwfspl : (s'.rules.take i ++ parseRules contents ++ s'.rules.drop (i + 1)).all
      wfRule = true := by
    rw [List.all_eq_true]
    intro x hx
    simp only [List.mem_append] at hx
    rcases hx with (hx | hx) | hx
    · exact List.all_eq_true.mp hwf' x (List.mem_of_mem_take hx)
    · exact List.all_eq_true.mp (wf_parseRules contents) x hx
    · exact List.all_eq_true.mp hwf' x (List.mem_of_mem_drop hx)
  obtain ⟨hf₂, hg₂⟩ := @setSheet_frame d' n loc s'
    ⟨s'.marker, s'.content, s'.rules.take i ++ parseRules contents ++ s'.rules.drop (i + 1)⟩
    hf hg rfl
  have hser := parseRules_serialize hwfspl
  obtain ⟨hf₃, hg₃⟩ := @setSheet_frame
    (d'.setSheet loc ⟨s'.marker, s'.content,
      s'.rules.take i ++ parseRules contents ++ s'.rules.drop (i + 1)⟩) n loc
    ⟨s'.marker, s'.content, s'.rules.take i ++ parseRules contents ++ s'.rules.drop (i + 1)⟩
    ⟨s'.marker, serializeStylesheet
        (s'.rules.take i ++ parseRules contents ++ s'.rules.drop (i + 1)),
      s'.rules.take i ++ parseRules contents ++ s'.rules.drop (i + 1)⟩ hf₂ hg₂ rfl
  refine ⟨loc, _, _, ?_, hf₃, hg₃, rfl, hwfspl⟩
  simp only [createOrUpdateRuleFn, hoc, hg, spliceRuleText, refreshStylesheetFn, hg₂,
    setInnerHTML, hser]

/-! ## The claims -/

/-- C1: the claimed placement policy fails on the code.  At a document with
no head container whose children are a non-style element followed by a
style element tagged "a" (the style-carrying child is the last child, so
the claim requires the new node to be appended at the end),
getOrCreateStylesheet("b") in fact inserts the new style node as the very
first child: the source passes the index of the first style node as the
second argument of Array.prototype.find, which is the thisArg parameter
and not a start index, so the search for a non-style sibling starts at the
beginning of the child list and finds the leading div. -/
theorem c1_placement_bug :
    getOrCreateStylesheetFn ⟨str "Unknown"⟩
        ⟨[ChildNode.otherChild true (str "div"),
          ChildNode.styleChild ⟨some (str "a"), [], []⟩]⟩ (str "b") =
      (some (SheetLoc.top 0),
        ⟨[ChildNode.styleChild ⟨some (str "b"), [], []⟩,
          ChildNode.otherChild true (str "div"),
          ChildNode.styleChild ⟨some (str "a"), [], []⟩]⟩, []) ∧
    (getOrCreateStylesheetFn ⟨str "Unknown"⟩
        ⟨[ChildNode.otherChild true (str "div"),
          ChildNode.styleChild ⟨some (str "a"), [], []⟩]⟩
        (str "b")).2.1.children.getLast? ≠
      some (ChildNode.styleChild ⟨some (str "b"), [], []⟩) := by
  exact ⟨by decide, by decide⟩

/-- C2: for every resolved stylesheet and every selector fragment, getRule
returns (the position of) the first rule in the stylesheet's rule-list
order, considering only plain selector rules, whose full selector text
ends with the requested fragment. -/
theorem c2_getRule_first_suffix_match (cfg : RepoCfg) (d : Doc) (n sel : Str)
    (strict : Bool) (loc : SheetLoc) (s : StyleNode)
    (h : findSheetLoc d n = some loc) (hs : d.getSheet loc = some s) :
    (getRuleFn cfg d n sel strict).1 =
      (s.rules.findIdx?
          (fun r => ruleIsStyle r && endsWithStr (ruleSelText r) sel)).map
        (fun i => (loc, i)) := by
  have hbridge : List.findIdx?
      (fun r => ruleIsStyle r && endsWithStr (ruleSelText r) sel) s.rules =
      findRuleInSheet s.rules sel := (findRuleInSheet_eq s.rules sel).symm
  rw [hbridge]
  cases hr : findRuleInSheet s.rules sel with
  | some i => rw [getRuleFn_found h hs hr strict]; rfl
  | none =>
    cases strict with
    | true => rw [getRuleFn_ruleMiss_strict h hs hr]; rfl
    | false => rw [getRuleFn_ruleMiss_lax h hs hr]; rfl

/-- C2 witness: a sheet named s with the single rule selector ".a .b" is
found by a lookup for ".b" (at position 0) and not by a lookup for ".c". -/
theorem c2_witness :
    (getRuleFn ⟨str "r"⟩
        ⟨[ChildNode.styleChild ⟨some (str "s"), str ".a .b\x7b\x7d",
          [CSSRule.styleRule (str ".a .b") []]⟩]⟩ (str "s") (str ".b") true).1 =
      some (SheetLoc.top 0, 0) ∧
    (getRuleFn ⟨str "r"⟩
        ⟨[ChildNode.styleChild ⟨some (str "s"), str ".a .b\x7b\x7d",
          [CSSRule.styleRule (str ".a .b") []]⟩]⟩ (str "s") (str ".c") true).1 =
      none := by
  constructor
  · exact (c2_getRule_first_suffix_match ⟨str "r"⟩
      ⟨[ChildNode.styleChild ⟨some (str "s"), str ".a .b\x7b\x7d",
        [CSSRule.styleRule (str ".a .b") []]⟩]⟩ (str "s") (str ".b") true
      (SheetLoc.top 0) ⟨some (str "s"), str ".a .b\x7b\x7d",
        [CSSRule.styleRule (str ".a .b") []]⟩ (by decide) (by decide)).trans (by decide)
  · exact (c2_getRule_first_suffix_match ⟨str "r"⟩
      ⟨[ChildNode.styleChild ⟨some (str "s"), str ".a .b\x7b\x7d",
        [CSSRule.styleRule (str ".a .b") []]⟩]⟩ (str "s") (str ".c") true
      (SheetLoc.top 0) ⟨some (str "s"), str ".a .b\x7b\x7d",
        [CSSRule.styleRule (str ".a .b") []]⟩ (by decide) (by decide)).trans (by decide)

/-- C3: when no stylesheet carries the marker with the requested name,
getStylesheet in strict mode returns absent and dispatches exactly one
UnknownStylesheet notification carrying that name, while non-strict mode
returns absent silently; when a match exists it is returned with no
notification in either mode. -/
theorem c3_getStylesheet_strictness (cfg : RepoCfg) (d : Doc) (n : Str) :
    (findSheetLoc d n = none →
      getStylesheetFn cfg d n true =
        (none, [DomEvent.unknownStylesheet n eventEmitterType cfg.name]) ∧
      getStylesheetFn cfg d n false = (none, [])) ∧
    (∀ loc, findSheetLoc d n = some loc →
      ∀ strict, getStylesheetFn cfg d n strict = (some loc, [])) := by
  refine ⟨fun h => ⟨getStylesheetFn_miss_strict h, getStylesheetFn_miss_lax h⟩,
    fun loc h strict => getStylesheetFn_found h strict⟩

/-- C3 witness: on the empty document the name x misses: the strict call
dispatches one UnknownStylesheet event naming x, the lax call is silent. -/
theorem c3_witness :
    getStylesheetFn ⟨str "Unknown"⟩ ⟨[]⟩ (str "x") true =
      (none, [DomEvent.unknownStylesheet (str "x") eventEmitterType (str "Unknown")]) ∧
    getStylesheetFn ⟨str "Unknown"⟩ ⟨[]⟩ (str "x") false = (none, []) :=
  (c3_getStylesheet_strictness ⟨str "Unknown"⟩ ⟨[]⟩ (str "x")).1 (by decide)

/-- C4: with strict mode, a rule miss on a resolved sheet dispatches
exactly one UnknownCssRule notification carrying both the name and the
selector; when the sheet itself is absent only the UnknownStylesheet
notification is dispatched; non-strict calls dispatch nothing. -/
theorem c4_getRule_error_handling (cfg : RepoCfg) (d : Doc) (n sel : Str) :
    (∀ loc s, findSheetLoc d n = some loc → d.getSheet loc = some s →
      findRuleInSheet s.rules sel = none →
      getRuleFn cfg d n sel true =
        (none, [DomEvent.unknownCssRule n sel eventEmitterType cfg.name])) ∧
    (findSheetLoc d n = none →
      getRuleFn cfg d n sel true =
        (none, [DomEvent.unknownStylesheet n eventEmitterType cfg.name])) ∧
    (getRuleFn cfg d n sel false).2 = [] := by
  exact ⟨fun loc s h hs hr => getRuleFn_ruleMiss_strict h hs hr,
    fun h => getRuleFn_sheetMiss_strict h,
    getRuleFn_lax_silent cfg d n sel⟩

/-- C4 witness: a sheet named t with no rule matching ".z" answers a strict
getRule with one UnknownCssRule event carrying t and ".z"; on the empty
document the same call raises only UnknownStylesheet; the lax call on the
empty document dispatches nothing. -/
theorem c4_witness :
    getRuleFn ⟨str "W"⟩ ⟨[ChildNode.styleChild ⟨some (str "t"), [], []⟩]⟩
        (str "t") (str ".z") true =
      (none, [DomEvent.unknownCssRule (str "t") (str ".z") eventEmitterType (str "W")]) ∧
    getRuleFn ⟨str "W"⟩ ⟨[]⟩ (str "t") (str ".z") true =
      (none, [DomEvent.unknownStylesheet (str "t") eventEmitterType (str "W")]) ∧
    (getRuleFn ⟨str "W"⟩ ⟨[]⟩ (str "t") (str ".z") false).2 = [] := by
  refine ⟨(c4_getRule_error_handling ⟨str "W"⟩
      ⟨[ChildNode.styleChild ⟨some (str "t"), [], []⟩]⟩ (str "t") (str ".z")).1
      (SheetLoc.top 0) ⟨some (str "t"), [], []⟩ (by decide) (by decide) (by decide),
    (c4_getRule_error_handling ⟨str "W"⟩ ⟨[]⟩ (str "t") (str ".z")).2.1 (by decide),
    (c4_getRule_error_handling ⟨str "W"⟩ ⟨[]⟩ (str "t") (str ".z")).2.2⟩

/-- C5: after setProperty(name, selector, property, value), getProperty on
the same keys returns that value, and the backing node's textual content,
when reparsed, contains a plain rule matching the selector that carries
that declaration value.  (The resolved sheet's rules, the selector and the
declaration are assumed well formed for the text round trip of the host
engine model.) -/
theorem c5_setProperty_roundtrip (cfg : RepoCfg) (d : Doc) (n sel p v : Str)
    (hwf : sheetRulesWF d n) (hsel : wfSel sel = true) (hpv : wfDecl ⟨p, v⟩ = true) :
    (getPropertyFn cfg (setPropertyFn cfg d n sel p v).1 n sel p true).1 = some v ∧
    ∃ loc s₂, findSheetLoc (setPropertyFn cfg d n sel p v).1 n = some loc ∧
      (setPropertyFn cfg d n sel p v).1.getSheet loc = some s₂ ∧
      ∃ (i : Nat) (r : CSSRule), (parseRules s₂.content)[i]? = some r ∧
        ruleIsStyle r = true ∧
        endsWithStr (ruleSelText r) sel = true ∧ rulePropValue r p = v := by
  obtain ⟨loc, i, d₂, s₂, hset, hf, hg, hcontent, hwf2, hfind, r, hri, hstyle, hends, hval⟩ :=
    @setProperty_spec cfg d n sel p v hwf hsel hpv
  rw [hset]
  constructor
  · simp only [getPropertyFn, getRuleFn_found hf hg hfind true, hg, hri, hval]
  · exact ⟨loc, s₂, hf, hg, i, r,
      by rw [hcontent, parseRules_serialize hwf2]; exact hri, hstyle, hends, hval⟩

/-- C5 witness: on the empty document, setProperty("t", ".card", "color",
"red") followed by getProperty returns "red". -/
theorem c5_witness :
    (getPropertyFn ⟨str "W"⟩
        (setPropertyFn ⟨str "W"⟩ ⟨[]⟩ (str "t") (str ".card") (str "color") (str "red")).1
        (str "t") (str ".card") (str "color") true).1 = some (str "red") :=
  (c5_setProperty_roundtrip ⟨str "W"⟩ ⟨[]⟩ (str "t") (str ".card") (str "color") (str "red")
    (by intro loc s hl _; simp [findSheetLoc, findSheetLocAux] at hl)
    (by decide) (by decide)).1

/-- C6: two successive getOrCreateStylesheet calls for the same name yield
the same sheet handle, the second call leaves the document unchanged, and
afterwards exactly one sheet is tagged with the name and a non-strict
resolve finds it (assuming the at-most-one-sheet-per-name invariant held
initially). -/
theorem c6_getOrCreate_no_duplicate (cfg : RepoCfg) (d : Doc) (n : Str)
    (hc : d.taggedCount n ≤ 1) :
    ∃ loc,
      (getOrCreateStylesheetFn cfg d n).1 = some loc ∧
      (getOrCreateStylesheetFn cfg ((getOrCreateStylesheetFn cfg d n).2.1) n).1 = some loc ∧
      (getOrCreateStylesheetFn cfg ((getOrCreateStylesheetFn cfg d n).2.1) n).2.1 =
        (getOrCreateStylesheetFn cfg d n).2.1 ∧
      ((getOrCreateStylesheetFn cfg d n).2.1).taggedCount n = 1 ∧
      (getStylesheetFn cfg ((getOrCreateStylesheetFn cfg d n).2.1) n false).1 = some loc := by
  cases h : findSheetLoc d n with
  | some loc =>
    have hpos : 0 < d.taggedCount n := by
      rw [Doc.taggedCount]
      exact (findSheetLocAux_isSome_iff d.children 0).mp ⟨loc, h⟩
    refine ⟨loc, ?_, ?_, ?_, ?_, ?_⟩ <;>
      simp [getOrCreateStylesheet_resolved h, getStylesheetFn_found h]
    omega
  | none =>
    obtain ⟨loc, hoc, hf, hg⟩ := @getOrCreateStylesheet_created cfg d n h
    have hz : d.taggedCount n = 0 := (findSheetLoc_none_iff d n).mp h
    have hcount : (insertNewStyleNode d ⟨some n, [], []⟩).taggedCount n = 1 := by
      rw [taggedCount_insert (by simp), hz]
    refine ⟨loc, ?_, ?_, ?_, ?_, ?_⟩ <;>
      simp [hoc, getOrCreateStylesheet_resolved hf, getStylesheetFn_found hf, hcount]

/-- C6 witness: on the empty document, two getOrCreate("t") calls agree on
the handle, the second changes nothing, and one sheet tagged t remains. -/
theorem c6_witness :
    ∃ loc,
      (getOrCreateStylesheetFn ⟨str "W"⟩ ⟨[]⟩ (str "t")).1 = some loc ∧
      (getOrCreateStylesheetFn ⟨str "W"⟩
          ((getOrCreateStylesheetFn ⟨str "W"⟩ ⟨[]⟩ (str "t")).2.1) (str "t")).1 = some loc ∧
      (getOrCreateStylesheetFn ⟨str "W"⟩
          ((getOrCreateStylesheetFn ⟨str "W"⟩ ⟨[]⟩ (str "t")).2.1) (str "t")).2.1 =
        (getOrCreateStylesheetFn ⟨str "W"⟩ ⟨[]⟩ (str "t")).2.1 ∧
      ((getOrCreateStylesheetFn ⟨str "W"⟩ ⟨[]⟩ (str "t")).2.1).taggedCount (str "t") = 1 ∧
      (getStylesheetFn ⟨str "W"⟩ ((getOrCreateStylesheetFn ⟨str "W"⟩ ⟨[]⟩ (str "t")).2.1)
          (str "t") false).1 = some loc :=
  c6_getOrCreate_no_duplicate ⟨str "W"⟩ ⟨[]⟩ (str "t") (by decide)

/-- C7: when a rule matching the selector already exists in the named
stylesheet, getOrCreateRule returns the handle of that existing rule and
leaves the document (hence the stylesheet's rule count) unchanged. -/
theorem c7_getOrCreateRule_idempotent (cfg : RepoCfg) (d : Doc) (n sel : Str)
    (loc : SheetLoc) (s : StyleNode) (i : Nat)
    (h : findSheetLoc d n = some loc) (hs : d.getSheet loc = some s)
    (hr : findRuleInSheet s.rules sel = some i) :
    getOrCreateRuleFn cfg d n sel = (some (loc, i), d, []) :=
  getOrCreateRule_existing h hs hr

/-- C7 witness: with a sheet t already holding a rule for ".a", a second
getOrCreateRule("t", ".a") returns that rule and changes nothing. -/
theorem c7_witness :
    getOrCreateRuleFn ⟨str "W"⟩
        ⟨[ChildNode.styleChild ⟨some (str "t"), str ".a\x7b\x7d",
          [CSSRule.styleRule (str ".a") []]⟩]⟩ (str "t") (str ".a") =
      (some (SheetLoc.top 0, 0),
        ⟨[ChildNode.styleChild ⟨some (str "t"), str ".a\x7b\x7d",
          [CSSRule.styleRule (str ".a") []]⟩]⟩, []) :=
  c7_getOrCreateRule_idempotent ⟨str "W"⟩
    ⟨[ChildNode.styleChild ⟨some (str "t"), str ".a\x7b\x7d",
      [CSSRule.styleRule (str ".a") []]⟩]⟩ (str "t") (str ".a")
    (SheetLoc.top 0) ⟨some (str "t"), str ".a\x7b\x7d", [CSSRule.styleRule (str ".a") []]⟩ 0
    (by decide) (by decide) (by decide)

/-- C8: when no rule matches the selector, getOrCreateRule synthesizes the
rule: the resulting sheet's textual content is the serialization of the
previous rules with an empty rule body for the selector appended, its live
rule list is the previous rules with the new empty rule at the end, and
the returned handle addresses that last position. -/
theorem c8_getOrCreateRule_creation (cfg : RepoCfg) (d : Doc) (n sel : Str)
    (hwf : sheetRulesWF d n) (hsel : wfSel sel = true)
    (hmiss : (getRuleFn cfg d n sel false).1 = none) :
    ∃ loc rules₀ m d₂,
      getOrCreateRuleFn cfg d n sel = (some (loc, rules₀.length), d₂, []) ∧
      d₂.getSheet loc = some ⟨m, serializeStylesheet rules₀ ++ ' ' :: sel ++ ['{', '}'],
        rules₀ ++ [CSSRule.styleRule sel []]⟩ := by
  cases h : findSheetLoc d n with
  | none =>
    obtain ⟨loc, hoc, hf, hg⟩ := @getOrCreateRule_fresh cfg d n sel h hsel
    refine ⟨loc, [], some n,
      (insertNewStyleNode d ⟨some n, [], []⟩).setSheet loc
        ⟨some n, ' ' :: sel ++ ['{', '}'], [CSSRule.styleRule sel []]⟩, ?_, ?_⟩
    · rw [hoc]
      rfl
    · rw [hg]
      simp [serializeStylesheet]
  | some loc =>
    obtain ⟨s, hs, _⟩ := getSheet_of_findSheetLoc h
    have hr : findRuleInSheet s.rules sel = none := by
      cases hr' : findRuleInSheet s.rules sel with
      | none => rfl
      | some i =>
        rw [getRuleFn_found h hs hr' false] at hmiss
        simp at hmiss
    rw [getOrCreateRule_extend h hs hr (hwf loc s h hs) hsel]
    obtain ⟨_, hg₂⟩ := @setSheet_frame d n loc s
      ⟨s.marker, serializeStylesheet s.rules ++ ' ' :: sel ++ ['{', '}'],
        s.rules ++ [CSSRule.styleRule sel []]⟩ h hs rfl
    exact ⟨loc, s.rules, s.marker, _, rfl, hg₂⟩

/-- C8 witness: on the empty document, getOrCreateRule("t", ".a") creates
the sheet and the rule; the synthesized content and the appended last rule
are observable at a concrete sheet. -/
theorem c8_witness :
    ∃ loc rules₀ m d₂,
      getOrCreateRuleFn ⟨str "W"⟩ ⟨[]⟩ (str "t") (str ".a") =
        (some (loc, rules₀.length), d₂, []) ∧
      d₂.getSheet loc = some ⟨m,
        serializeStylesheet rules₀ ++ ' ' :: str ".a" ++ ['{', '}'],
        rules₀ ++ [CSSRule.styleRule (str ".a") []]⟩ :=
  c8_getOrCreateRule_creation ⟨str "W"⟩ ⟨[]⟩ (str "t") (str ".a")
    (by intro loc s hl _; simp [findSheetLoc, findSheetLocAux] at hl)
    (by decide) (by decide)

/-- C9 counterexample: the claim fails for the creation path of
getOrCreateRule.  On the empty document, getOrCreateRule("t", ".a")
leaves the backing node's content equal to " .a\x7b\x7d" (with the space
the source template inserts before the appended selector), while the
serialization of the live rule list is ".a\x7b\x7d": the two differ, and no
refresh runs on this path. -/
theorem c9_counterexample :
    ((getOrCreateRuleFn ⟨str "Unknown"⟩ ⟨[]⟩ (str "t") (str ".a")).2.1).getSheet
        (SheetLoc.top 0) =
      some ⟨some (str "t"), str " .a\x7b\x7d", [CSSRule.styleRule (str ".a") []]⟩ ∧
    str " .a\x7b\x7d" ≠ serializeStylesheet [CSSRule.styleRule (str ".a") []] := by
  exact ⟨by decide, by decide⟩

/-- C9 (amended): after the refreshing mutations setProperty and
createOrUpdateRule, the backing node's textual content equals the
serialization of the owning stylesheet's live rule list; the creation path
of getOrCreateRule does not refresh and is excluded. -/
theorem c9_refresh_invariant (cfg : RepoCfg) (d : Doc) (n sel p v contents : Str)
    (hwf : sheetRulesWF d n) (hsel : wfSel sel = true) (hpv : wfDecl ⟨p, v⟩ = true) :
    (∃ loc s₂, findSheetLoc (setPropertyFn cfg d n sel p v).1 n = some loc ∧
      (setPropertyFn cfg d n sel p v).1.getSheet loc = some s₂ ∧
      s₂.content = serializeStylesheet s₂.rules) ∧
    (∃ loc s₂, findSheetLoc (createOrUpdateRuleFn cfg d n sel contents).1 n = some loc ∧
      (createOrUpdateRuleFn cfg d n sel contents).1.getSheet loc = some s₂ ∧
      s₂.content = serializeStylesheet s₂.rules) := by
  constructor
  · obtain ⟨loc, i, d₂, s₂, hset, hf, hg, hcontent, _⟩ :=
      @setProperty_spec cfg d n sel p v hwf hsel hpv
    rw [hset]
    exact ⟨loc, s₂, hf, hg, hcontent⟩
  · obtain ⟨loc, d₂, s₂, hset, hf, hg, hcontent, _⟩ :=
      @createOrUpdateRule_spec cfg d n sel contents hwf hsel
    rw [hset]
    exact ⟨loc, s₂, hf, hg, hcontent⟩

/-- C9 witness: the amended invariant at a concrete input (empty document,
sheet t, selector ".a", declaration color:red, rule text ".b\x7bx:y;\x7d"). -/
theorem c9_witness :
    (∃ loc s₂, findSheetLoc (setPropertyFn ⟨str "W"⟩ ⟨[]⟩ (str "t") (str ".a")
        (str "color") (str "red")).1 (str "t") = some loc ∧
      (setPropertyFn ⟨str "W"⟩ ⟨[]⟩ (str "t") (str ".a")
        (str "color") (str "red")).1.getSheet loc = some s₂ ∧
      s₂.content = serializeStylesheet s₂.rules) ∧
    (∃ loc s₂, findSheetLoc (createOrUpdateRuleFn ⟨str "W"⟩ ⟨[]⟩ (str "t") (str ".a")
        (str ".b\x7bx:y;\x7d")).1 (str "t") = some loc ∧
      (createOrUpdateRuleFn ⟨str "W"⟩ ⟨[]⟩ (str "t") (str ".a")
        (str ".b\x7bx:y;\x7d")).1.getSheet loc = some s₂ ∧
      s₂.content = serializeStylesheet s₂.rules) :=
  c9_refresh_invariant ⟨str "W"⟩ ⟨[]⟩ (str "t") (str ".a") (str "color") (str "red")
    (str ".b\x7bx:y;\x7d")
    (by intro loc s hl _; simp [findSheetLoc, findSheetLocAux] at hl)
    (by decide) (by decide)

/-- C10: for an existing named stylesheet containing at least one plain
selector rule, getRule with the empty selector returns the first plain
selector rule (every selector text ends with the empty string) and
dispatches no notification at all, in either strict mode. -/
theorem c10_empty_selector (cfg : RepoCfg) (d : Doc) (n : Str) (strict : Bool)
    (loc : SheetLoc) (s : StyleNode) (i : Nat)
    (h : findSheetLoc d n = some loc) (hs : d.getSheet loc = some s)
    (hi : s.rules.findIdx? ruleIsStyle = some i) :
    getRuleFn cfg d n [] strict = (some (loc, i), []) := by
  have hfr : findRuleInSheet s.rules [] = some i := by
    rw [findRuleInSheet_eq]
    have hpred : ruleMatches ([] : Str) = ruleIsStyle := by
      funext r
      simp [ruleMatches, endsWithStr_nil]
    rw [hpred]
    exact hi
  exact getRuleFn_found h hs hfr strict

/-- C10 witness: a sheet whose rule list starts with an at-rule followed by
a plain rule answers the empty-selector lookup with the plain rule at
position 1 and no events. -/
theorem c10_witness :
    getRuleFn ⟨str "W"⟩
        ⟨[ChildNode.styleChild ⟨some (str "t"), str "@media x;.a\x7b\x7d",
          [CSSRule.otherRule (str "@media x;"), CSSRule.styleRule (str ".a") []]⟩]⟩
        (str "t") [] true =
      (some (SheetLoc.top 0, 1), []) :=
  c10_empty_selector ⟨str "W"⟩
    ⟨[ChildNode.styleChild ⟨some (str "t"), str "@media x;.a\x7b\x7d",
      [CSSRule.otherRule (str "@media x;"), CSSRule.styleRule (str ".a") []]⟩]⟩
    (str "t") true (SheetLoc.top 0)
    ⟨some (str "t"), str "@media x;.a\x7b\x7d",
      [CSSRule.otherRule (str "@media x;"), CSSRule.styleRule (str ".a") []]⟩ 1
    (by decide) (by decide) (by decide)

end EnhancedDomCss
